import Mathlib

/-!
privateRooms: rooms, session directory and two-table message routing.

A shallow embedding of `src/main.go`.

* Go `int` values are mathematical integers (`Int`); the one place where the
  program does arithmetic on them that can leave the 64-bit range
  (`nextID = max + 1`) wraps explicitly (`wrapInt64`).
* `*Room` pointers are indices into `State.heap`, the list of every `Room`
  object allocated so far.  Both Go maps (`clientsRooms`, `allRooms`) have type
  `map[int]*Room` and are association lists with unique keys from chat / room
  ids to pointers.
* A handler returns `Except Panic (State × List Event)`: the new state and the
  outbound sends and log lines it produced, or the run-time panic that
  aborted it.
* What the program cannot decide itself is an input of the model (`Env`): the
  outcome of each `sendMessage` call, the value of `rand.Intn`, and the order
  in which `range` visits the entries of a map.
-/

namespace PrivateRooms

/-! ## Constants (main.go 15-25) -/

def defaultHandlerMessage : String := "_default"

def defaultRoomName : String := "ChackChack"

def defaultPrivateStatus : Bool := true

def defaultRoomLimit : Int := 10

/-! ## Data (main.go 44-67, 90-96) -/

/-- The fields of `UpdateResultFromT` that the handlers read. -/
structure UpdateResultFromT where
  Id : Int
  FirstName : String
deriving DecidableEq, Repr

/-- The field of `UpdateResultChatT` that the handlers read. -/
structure UpdateResultChatT where
  Id : Int
deriving DecidableEq, Repr

/-- The fields of `UpdateResultMessageT` that the handlers read. -/
structure UpdateResultMessageT where
  From : UpdateResultFromT
  Chat : UpdateResultChatT
  Text : String
deriving DecidableEq, Repr

/-- Room info (main.go 90-96). -/
structure Room where
  ID : Int
  Name : String
  Limit : Int
  Members : List Int
  Private : Bool
deriving DecidableEq, Repr

/-- A Go `map[int]*Room`: unique integer keys, values are heap pointers. -/
abbrev RoomMap := AList (fun _ : Int => Nat)

/-- An entry of a `map[int]*Room` as produced by `range`. -/
abbrev Entry := Sigma (fun _ : Int => Nat)

/-- The program state: every allocated `Room`, the session directory
`clientsRooms` and the registry `allRooms` (main.go 449-450). -/
structure State where
  heap : List Room
  clientsRooms : RoomMap
  allRooms : RoomMap
deriving DecidableEq

/-- State at process start: both maps are empty, nothing is allocated. -/
def State.init : State := ⟨[], ∅, ∅⟩

/-- Run-time panics that the modelled code can raise. -/
inductive Panic where
  | indexOutOfRange
  | nilDereference
deriving DecidableEq, Repr

/-- Observable output: a `sendMessage` call or a `log.Println` line. -/
inductive Event where
  | send (chatId : Int) (text : String)
  | log (line : String)
deriving DecidableEq, Repr

/-- Inputs of one handler invocation that the program does not control:
`sendErr k` is the error returned by the `k`-th `sendMessage` call of the
invocation (`none` for success), `intn` the value drawn by `rand.Intn`, and
`visit` the order in which `range` yields the entries of `allRooms`. -/
structure Env where
  sendErr : Nat → Option String
  intn : Nat
  visit : List Entry

/-- The `sendMessage` calls in a list of events, in order. -/
def sends : List Event → List (Int × String)
  | [] => []
  | Event.send chatId text :: rest => (chatId, text) :: sends rest
  | Event.log _ :: rest => sends rest

/-! ## Library functions used by the handlers -/

/-- Go `unicode.IsSpace`: the Unicode White_Space property. -/
def isSpace (r : Char) : Bool :=
  let n := r.toNat
  (0x09 ≤ n && n ≤ 0x0D) || n == 0x20 || n == 0x85 || n == 0xA0 || n == 0x1680 ||
    (0x2000 ≤ n && n ≤ 0x200A) || n == 0x2028 || n == 0x2029 || n == 0x202F ||
    n == 0x205F || n == 0x3000

/-- Scanner of `strings.Fields`: `cur` is the field being read, reversed. -/
def fieldsLoop : List Char → List Char → List String
  | [], cur => if cur.isEmpty then [] else [String.mk cur.reverse]
  | c :: cs, cur =>
    if isSpace c then
      if cur.isEmpty then fieldsLoop cs [] else String.mk cur.reverse :: fieldsLoop cs []
    else fieldsLoop cs (c :: cur)

/-- Go `strings.Fields`: the maximal runs of non-space characters of `s`. -/
def Fields (s : String) : List String := fieldsLoop s.data []

/-- The two error kinds of `strconv` (`ErrSyntax`, `ErrRange`). -/
inductive NumError where
  | errSyntax
  | errRange
deriving DecidableEq, Repr

/-- Digit loop of `strconv.ParseUint(s, 10, 64)`: any character other than a
decimal digit is a syntax error, leaving the 64-bit range a range error
(reported as soon as it happens). -/
def parseUintLoop : List Char → Nat → Except NumError Nat
  | [], n => .ok n
  | c :: cs, n =>
    if 48 ≤ c.toNat ∧ c.toNat ≤ 57 then
      if n ≥ (2 ^ 64 - 1) / 10 + 1 then .error .errRange
      else
        let n1 := n * 10 + (c.toNat - 48)
        if n1 > 2 ^ 64 - 1 then .error .errRange else parseUintLoop cs n1
    else .error .errSyntax

/-- Go `strconv.Atoi` on a 64-bit platform: value and error.  On a syntax error
the value is 0, on a range error it is the nearest bound of `int`. -/
def Atoi (s : String) : Int × Option NumError :=
  let neg := s.data.head? = some '-'
  let digits := if s.data.head? = some '+' ∨ s.data.head? = some '-' then s.data.tail else s.data
  if digits = [] then (0, some .errSyntax)
  else
    match parseUintLoop digits 0 with
    | .error .errSyntax => (0, some .errSyntax)
    | .error .errRange => (if neg then -(2 ^ 63) else 2 ^ 63 - 1, some .errRange)
    | .ok un =>
      if ¬ neg ∧ un ≥ 2 ^ 63 then (2 ^ 63 - 1, some .errRange)
      else if neg ∧ un > 2 ^ 63 then (-(2 ^ 63), some .errRange)
      else (if neg then -(un : Int) else (un : Int), none)

/-- Go `strconv.Itoa`. -/
def Itoa (i : Int) : String := toString i

/-- How `log.Println` prints a `[]int`. -/
def fmtInts (l : List Int) : String := "[" ++ " ".intercalate (l.map Itoa) ++ "]"

/-- 64-bit two's complement wrap-around of an `int` result. -/
def wrapInt64 (x : Int) : Int := (x + 2 ^ 63) % 2 ^ 64 - 2 ^ 63

/-- Go `sort.Ints`. -/
def sortInts (l : List Int) : List Int := l.insertionSort (fun a b => a ≤ b)

/-- The pattern `_, err := sendMessage(chatId, text); if err != nil \x7b log.Println(err.Error()) \x7d`
for the `k`-th send of an invocation. -/
def sendMessage (env : Env) (k : Nat) (chatId : Int) (text : String) : List Event :=
  Event.send chatId text ::
    (match env.sendErr k with
     | none => []
     | some e => [Event.log e])

/-! ## Global handlers (main.go 157-270, 319-338, 353-415) -/

/-- Handler on command /start (main.go 157-168). -/
def startHandler (env : Env) (message : UpdateResultMessageT) (σ : State) :
    Except Panic (State × List Event) :=
  let userMessage := "Привет " ++ message.From.FirstName ++ "!\n" ++
    "Набери сообщение /help для просмотра команд"
  .ok (σ, sendMessage env 0 message.Chat.Id userMessage)

/-- When user join to room handler (main.go 170-228). -/
def joinRoomHandler (env : Env) (message : UpdateResultMessageT) (σ : State) :
    Except Panic (State × List Event) :=
  let command := Fields message.Text
  if command.length < 2 then
    .ok (σ, sendMessage env 0 message.Chat.Id "Необходимо ввести ID комнаты")
  else
    match command[1]? with
    | none => .error .indexOutOfRange
    | some arg =>
      match Atoi arg with
      | (_, some _) => .ok (σ, sendMessage env 0 message.Chat.Id "Неверно введен ID комнаты")
      | (chatID, none) =>
        match σ.allRooms.lookup chatID with
        | some roomPointer =>
          match σ.heap[roomPointer]? with
          | none => .error .nilDereference
          | some roomInstance =>
            if roomInstance.Limit ≤ (roomInstance.Members.length : Int) then
              .ok (σ, sendMessage env 0 message.Chat.Id "Комната переполнена")
            else
              let roomInstance1 : Room :=
                { roomInstance with Members := roomInstance.Members ++ [message.Chat.Id] }
              .ok ({ heap := σ.heap.set roomPointer roomInstance1,
                     clientsRooms := σ.clientsRooms.insert message.Chat.Id roomPointer,
                     allRooms := σ.allRooms },
                   Event.log ("Client " ++ Itoa message.Chat.Id ++ " entered the room " ++
                       roomInstance1.Name) ::
                     sendMessage env 0 message.Chat.Id
                       ("Вы успешно зашли в комнату " ++ roomInstance1.Name))
        | none =>
          .ok (σ, sendMessage env 0 message.Chat.Id
                ("Комната с ID " ++ Itoa chatID ++ " не найдена"))

/-- Loop of `listHandler` over the registry entries in visiting order:
the public-room count and the text accumulated so far. -/
def listLoop (heap : List Room) : List Entry → Int → String → Except Panic (Int × String)
  | [], roomCount, userMessage => .ok (roomCount, userMessage)
  | ⟨_, roomPointer⟩ :: rest, roomCount, userMessage =>
    match heap[roomPointer]? with
    | none => .error .nilDereference
    | some roomInstance =>
      if roomInstance.Private then listLoop heap rest roomCount userMessage
      else
        listLoop heap rest (roomCount + 1)
          (userMessage ++ "\n" ++ roomInstance.Name ++ ", " ++ Itoa roomInstance.ID ++ ", " ++
            Itoa roomInstance.Members.length ++ "/" ++ Itoa roomInstance.Limit)

/-- The get-list-of-public-rooms handler (main.go 230-253). -/
def listHandler (env : Env) (message : UpdateResultMessageT) (σ : State) :
    Except Panic (State × List Event) :=
  match listLoop σ.heap env.visit 0 "" with
  | .error e => .error e
  | .ok (roomCount, userMessage) =>
    .ok (σ, sendMessage env 0 message.Chat.Id
          (userMessage ++ "\nОбщее количество публичных комнат: " ++ Itoa roomCount))

/-- The /help command handler (main.go 255-270). -/
def helpHandler (env : Env) (message : UpdateResultMessageT) (σ : State) :
    Except Panic (State × List Event) :=
  let helpMessage := "Вот что я умею\n" ++
    "/help - Показать меню помощи\n" ++
    "/join <room id> присоединиться к комнате\n" ++
    "/create <room name | optional> <limit | optional > <private | optional, default True> Создать комнату.\n" ++
    "/info информацию по комнате\n" ++
    "/list список доступных комнат\n" ++
    "/quit выйти из комнаты"
  .ok (σ, sendMessage env 0 message.Chat.Id helpMessage)

/-- The canned replies of `defaultMainHandler` (main.go 320-333). -/
def randomMessages : List String :=
  ["Я правда пытаюсь тебя понять, но не могу. Может всё таки /help",
   "ДА! Я ЗНАЛ, что тут есть кто-то живой!",
   "А-а-а! Ты выглядишь ужа... Ты выглядишь здорово! На самом деле, здорово.",
   "Ладно, слушай, говорю тебе прямо. Ты - последний испытуемый. И если ты мне не поможешь, мы оба умрем. Понятно? Я не хотел это говорить, но ты из меня это вытянула. Понятно? Умрем. Dos Muerte",
   "Ладно. Не хотел говорить тебе, но придется. У нас тут серьезные неприятности",
   "Пф-ф. Серьезно? И что тогда?",
   "Так, слушай. Нам надо договориться, понимаешь? Чтобы ответы были одинаковые. Если кто-нибудь спросит - не, никто не спросит, ты не волнуйся - но если кто-нибудь спросит, скажи, что последний раз, когда ты проверяла, все были более-менее живы. Хорошо? Не мертвы",
   "Ох, уже близко... Тебе видно? Я пролезу? Места хватит?",
   "Подожди. Это немножко сложно.",
   "Ох, просто открой дверь! Это было слишком агрессивно... Привет, друг! Открой, пожалуйста, дверь!",
   "Но не тревожься, потому что... Хотя, на самом деле, если ты беспокоишься, то это нормально. Потому что беспокойство - это нормальная реакция на то, что у тебя поврежден мозг. Так что, если ты чувствуешь беспокойство, это может означать, что мозг поврежден не так сильно. Хотя, скорее всего, сильно.",
   "Мы почти на месте! Помни, что тебе нужна такая пушка, которая делает отверстия. Не пулевые отверстия, а... Ну, ты разберешься. Давай, соберись с духом!"]

/-- The default global handler (main.go 319-338); `rand.Intn(n)` lies in `[0, n)`. -/
def defaultMainHandler (env : Env) (message : UpdateResultMessageT) (σ : State) :
    Except Panic (State × List Event) :=
  match randomMessages[env.intn % randomMessages.length]? with
  | none => .error .indexOutOfRange
  | some text => .ok (σ, sendMessage env 0 message.Chat.Id text)

/-- The create-room handler (main.go 353-415). -/
def createRoomHandler (env : Env) (message : UpdateResultMessageT) (σ : State) :
    Except Panic (State × List Event) :=
  let allID : List Int := List.replicate 10 0 ++ env.visit.map (fun e => e.1)
  let nextID : Int :=
    if allID.length ≠ 0 then wrapInt64 ((sortInts allID).getLastD 0 + 1) else 0
  let command := Fields message.Text
  let roomName := if command.length ≥ 2 then command.getD 1 defaultRoomName else defaultRoomName
  let parsed : Int × Option NumError :=
    if command.length ≥ 3 then Atoi (command.getD 2 "") else (defaultRoomLimit, none)
  let roomLimit := parsed.1
  let limitEvents : List Event :=
    match parsed.2 with
    | some _ => sendMessage env 0 message.Chat.Id "Не правильно введен лимит для комнаты"
    | none => []
  let roomPrivate := if command.length ≥ 3 then !defaultPrivateStatus else defaultPrivateStatus
  let newRoom : Room :=
    { ID := nextID, Name := roomName, Limit := roomLimit, Private := roomPrivate,
      Members := [message.Chat.Id] }
  let newPointer := σ.heap.length
  .ok ({ heap := σ.heap ++ [newRoom],
         allRooms := σ.allRooms.insert nextID newPointer,
         clientsRooms := σ.clientsRooms.insert message.Chat.Id newPointer },
       limitEvents ++
         Event.log ("create room: " ++ Itoa newRoom.ID ++ newRoom.Name) ::
           sendMessage env (sends limitEvents).length message.Chat.Id
             ("Вы создали комнату: " ++ newRoom.Name ++ "\nID комнаты: " ++ Itoa newRoom.ID ++
               "\nЛимит комнаты: " ++ Itoa newRoom.Limit))

/-! ## Room handlers (main.go 278-317, 417-431) -/

/-- Loop of `messageRoomHandler`; `k` counts the sends made so far. -/
def messageRoomLoop (env : Env) (message : UpdateResultMessageT) : List Int → Nat → List Event
  | [], _ => []
  | memberId :: rest, k =>
    if memberId = message.Chat.Id then messageRoomLoop env message rest k
    else
      Event.send memberId (message.From.FirstName ++ ": " ++ message.Text) ::
        ((match env.sendErr k with
          | none => []
          | some e => [Event.log ("error while send message: " ++ e)]) ++
         messageRoomLoop env message rest (k + 1))

/-- Send messages to all room members (main.go 278-293). -/
def messageRoomHandler (env : Env) (message : UpdateResultMessageT) (room : Nat) (σ : State) :
    Except Panic (State × List Event) :=
  match σ.heap[room]? with
  | none => .error .nilDereference
  | some roomInstance => .ok (σ, messageRoomLoop env message roomInstance.Members 0)

/-- One iteration of the removal loop of `quitRoomHandler` (main.go 299-305) at
index `i`.  `arr` is the backing array shared by the slice being ranged over
and `roomValue.Members`; `len` is the current length of `roomValue.Members`. -/
def quitStep (chatId : Int) (s : List Int × Nat) (i : Nat) : Except Panic (List Int × Nat) :=
  match s.1[i]? with
  | none => .error .indexOutOfRange
  | some value =>
    if value = chatId then
      if s.2 = 0 then .error .indexOutOfRange
      else if s.2 ≤ i then .error .indexOutOfRange
      else
        match s.1[s.2 - 1]? with
        | none => .error .indexOutOfRange
        | some last => .ok (((s.1.set i last).set (s.2 - 1) 0), s.2 - 1)
    else .ok s

/-- The removal loop of `quitRoomHandler` from index `i` on, with `remaining`
iterations to go. -/
def quitLoop (chatId : Int) : Nat → Nat → List Int × Nat → Except Panic (List Int × Nat)
  | 0, _, s => .ok s
  | remaining + 1, i, s =>
    match quitStep chatId s i with
    | .error e => .error e
    | .ok s1 => quitLoop chatId remaining (i + 1) s1

/-- The member slice after the removal loop: `range` fixes the index range
`0 .. len(Members)-1` once, before the first iteration. -/
def quitMembers (chatId : Int) (members : List Int) : Except Panic (List Int) :=
  match quitLoop chatId members.length 0 (members, members.length) with
  | .error e => .error e
  | .ok (arr, len) => .ok (arr.take len)

/-- The quit handler (main.go 295-317). -/
def quitRoomHandler (env : Env) (message : UpdateResultMessageT) (room : Nat) (σ : State) :
    Except Panic (State × List Event) :=
  match σ.heap[room]? with
  | none => .error .nilDereference
  | some roomValue =>
    match quitMembers message.Chat.Id roomValue.Members with
    | .error e => .error e
    | .ok members =>
      let roomValue1 : Room := { roomValue with Members := members }
      .ok ({ heap := σ.heap.set room roomValue1,
             clientsRooms := σ.clientsRooms.erase message.Chat.Id,
             allRooms := σ.allRooms },
           [Event.log ("delete chat " ++ Itoa message.Chat.Id ++ " from room " ++ roomValue1.Name),
            Event.log (fmtInts roomValue1.Members)] ++
             sendMessage env 0 message.Chat.Id ("Вы вышли из комнаты: " ++ roomValue1.Name))

/-- The /info handler (main.go 417-431). -/
def roomInfoHandler (env : Env) (message : UpdateResultMessageT) (room : Nat) (σ : State) :
    Except Panic (State × List Event) :=
  match σ.heap[room]? with
  | none => .error .nilDereference
  | some roomInstance =>
    let roomLimit := Itoa roomInstance.Limit
    let roomID := Itoa roomInstance.ID
    let membersLen := Itoa roomInstance.Members.length
    let roomName := roomInstance.Name
    .ok (σ, sendMessage env 0 message.Chat.Id
          ("Вы сейчас находитесь в комнате: " ++ roomName ++ ", id: " ++ roomID ++ "\n" ++
            "Количкство участников: " ++ membersLen ++ "\n" ++
            "Лимит участников: " ++ roomLimit))

/-! ## Sweep (main.go 340-351) -/

/-- Loop of `cleanRooms` over the entries in visiting order; only the entry
being visited is ever deleted, so every entry is visited once. -/
def cleanRoomsLoop (heap : List Room) : List Entry → RoomMap → Except Panic (RoomMap × List Event)
  | [], roomsMapInstance => .ok (roomsMapInstance, [])
  | ⟨roomID, roomPointer⟩ :: rest, roomsMapInstance =>
    match heap[roomPointer]? with
    | none => .error .nilDereference
    | some roomInstance =>
      if roomInstance.Members.length = 0 then
        match cleanRoomsLoop heap rest (roomsMapInstance.erase roomID) with
        | .error e => .error e
        | .ok (m, evs) =>
          .ok (m, Event.log ("Room " ++ roomInstance.Name ++ "is empty. delete it.") :: evs)
      else cleanRoomsLoop heap rest roomsMapInstance

/-- The sweep `cleanRooms(&allRooms)`; `visit` is the order in which `range`
yields the registry entries. -/
def cleanRooms (visit : List Entry) (σ : State) : Except Panic (State × List Event) :=
  match cleanRoomsLoop σ.heap visit σ.allRooms with
  | .error e => .error e
  | .ok (m, evs) => .ok ({ σ with allRooms := m }, evs)

/-! ## Router (main.go 434-447, 471-489) -/

/-- Names of the global handlers (`MainMessageHandler` values). -/
inductive MainMessageHandler where
  | startHandler
  | helpHandler
  | createRoomHandler
  | joinRoomHandler
  | listHandler
  | defaultMainHandler
deriving DecidableEq, Repr

/-- Names of the room handlers (`RoomMessageHandler` values). -/
inductive RoomMessageHandler where
  | messageRoomHandler
  | quitRoomHandler
  | roomInfoHandler
deriving DecidableEq, Repr

/-- The global dispatch table (main.go 434-441). -/
def mainDispatcher : List (String × MainMessageHandler) :=
  [("/start", .startHandler),
   ("/help", .helpHandler),
   ("/create", .createRoomHandler),
   ("/join", .joinRoomHandler),
   ("/list", .listHandler),
   (defaultHandlerMessage, .defaultMainHandler)]

/-- The room dispatch table (main.go 443-447). -/
def roomDispatcher : List (String × RoomMessageHandler) :=
  [(defaultHandlerMessage, .messageRoomHandler),
   ("/quit", .quitRoomHandler),
   ("/info", .roomInfoHandler)]

/-- Calling a global handler value. -/
def MainMessageHandler.call : MainMessageHandler → Env → UpdateResultMessageT → State →
    Except Panic (State × List Event)
  | .startHandler => PrivateRooms.startHandler
  | .helpHandler => PrivateRooms.helpHandler
  | .createRoomHandler => PrivateRooms.createRoomHandler
  | .joinRoomHandler => PrivateRooms.joinRoomHandler
  | .listHandler => PrivateRooms.listHandler
  | .defaultMainHandler => PrivateRooms.defaultMainHandler

/-- Calling a room handler value on a room pointer. -/
def RoomMessageHandler.call : RoomMessageHandler → Env → UpdateResultMessageT → Nat → State →
    Except Panic (State × List Event)
  | .messageRoomHandler => PrivateRooms.messageRoomHandler
  | .quitRoomHandler => PrivateRooms.quitRoomHandler
  | .roomInfoHandler => PrivateRooms.roomInfoHandler

/-- The handler call the router makes for one inbound message. -/
inductive Invocation where
  | room (handler : RoomMessageHandler) (room : Nat)
  | main (handler : MainMessageHandler)
deriving DecidableEq, Repr

/-- Handler selection of the poll loop body (main.go 472-488): `none` when the
message is skipped, a panic when `strings.Fields(text)[0]` is out of range. -/
def dispatch (σ : State) (item : UpdateResultMessageT) : Except Panic (Option Invocation) :=
  if item.Text = "" then .ok none
  else
    match (Fields item.Text)[0]? with
    | none => .error .indexOutOfRange
    | some command =>
      match σ.clientsRooms.lookup item.Chat.Id with
      | some room =>
        match roomDispatcher.lookup command with
        | some value => .ok (some (.room value room))
        | none =>
          match roomDispatcher.lookup defaultHandlerMessage with
          | some value => .ok (some (.room value room))
          | none => .error .nilDereference
      | none =>
        match mainDispatcher.lookup command with
        | some value => .ok (some (.main value))
        | none =>
          match mainDispatcher.lookup defaultHandlerMessage with
          | some value => .ok (some (.main value))
          | none => .error .nilDereference

/-- Running the selected handler. -/
def Invocation.call : Invocation → Env → UpdateResultMessageT → State →
    Except Panic (State × List Event)
  | .room handler roomPointer => fun env message σ =>
    RoomMessageHandler.call handler env message roomPointer σ
  | .main handler => fun env message σ => MainMessageHandler.call handler env message σ

/-- The body of the poll loop for one inbound message (main.go 471-489). -/
def route (env : Env) (σ : State) (item : UpdateResultMessageT) :
    Except Panic (State × List Event) :=
  match dispatch σ item with
  | .error e => .error e
  | .ok none => .ok (σ, [])
  | .ok (some invocation) => Invocation.call invocation env item σ

/-- States the program can be in: it starts from empty maps, and each step is a
sweep or the routing of one inbound message that did not panic, with `range`
visiting the registry in some order. -/
inductive Reachable : State → Prop where
  | init : Reachable State.init
  | sweep (σ σ1 : State) (visit : List Entry) (evs : List Event) :
      Reachable σ → visit.Perm σ.allRooms.entries →
      PrivateRooms.cleanRooms visit σ = .ok (σ1, evs) →
      Reachable σ1
  | route (σ σ1 : State) (env : Env) (item : UpdateResultMessageT) (evs : List Event) :
      Reachable σ → env.visit.Perm σ.allRooms.entries →
      PrivateRooms.route env σ item = .ok (σ1, evs) →
      Reachable σ1

/-- Consistency of a state: the registry points at allocated rooms, no member
list holds a session twice, and the directory maps a session to a room
exactly when that room lists the session as a member. -/
structure Inv (σ : State) : Prop where
  registry_valid : ∀ e ∈ σ.allRooms.entries, e.2 < σ.heap.length
  members_nodup : ∀ (p : Nat) (r : Room), σ.heap[p]? = some r → r.Members.Nodup
  directory_iff : ∀ s p, σ.clientsRooms.lookup s = some p ↔
    ∃ r : Room, σ.heap[p]? = some r ∧ s ∈ r.Members

/-- Every room of the registry holds at most `Limit` members. -/
def WithinLimits (σ : State) : Prop :=
  ∀ (id : Int) (p : Nat) (r : Room), σ.allRooms.lookup id = some p → σ.heap[p]? = some r →
    (r.Members.length : Int) ≤ r.Limit

/-- The id computed by `createRoomHandler` (main.go 354-366) when `range`
yields the registry entries `visit`. -/
def createNextID (visit : List Entry) : Int :=
  let allID : List Int := List.replicate 10 0 ++ visit.map (fun e => e.1)
  if allID.length ≠ 0 then wrapInt64 ((sortInts allID).getLastD 0 + 1) else 0

/-- The `Room` built by `createRoomHandler` (main.go 368-398). -/
def createdRoom (env : Env) (message : UpdateResultMessageT) : Room :=
  let command := Fields message.Text
  { ID := createNextID env.visit,
    Name := if command.length ≥ 2 then command.getD 1 defaultRoomName else defaultRoomName,
    Limit := (if command.length ≥ 3 then Atoi (command.getD 2 "")
              else (defaultRoomLimit, none)).1,
    Private := if command.length ≥ 3 then !defaultPrivateStatus else defaultPrivateStatus,
    Members := [message.Chat.Id] }

/-- The line of the `/list` reply for one public room (main.go 245-246). -/
def listEntry (roomInstance : Room) : String :=
  "\n" ++ roomInstance.Name ++ ", " ++ Itoa roomInstance.ID ++ ", " ++
    Itoa roomInstance.Members.length ++ "/" ++ Itoa roomInstance.Limit

/-- The rooms behind a sequence of registry entries, in that order. -/
def roomsOf (heap : List Room) (entries : List Entry) : List Room :=
  entries.filterMap (fun e => heap[e.2]?)

/-- A room with its `Private` flag blanked. -/
def Room.forgetPrivate (r : Room) : Room := { r with Private := false }

/-- A state with the `Private` flag of every room blanked. -/
def State.forgetPrivate (σ : State) : State :=
  { σ with heap := σ.heap.map Room.forgetPrivate }

/-- A handler result with the `Private` flag of every room blanked. -/
def forgetPrivateResult : Except Panic (State × List Event) → Except Panic (State × List Event)
  | .error e => .error e
  | .ok (σ, evs) => .ok (σ.forgetPrivate, evs)

/-- The id computation `max + 1` has not overflowed so far: no room has been
given the smallest `int` as its id. -/
def NoOverflow (σ : State) : Prop := ∀ r ∈ σ.heap, r.ID ≠ -(2 ^ 63)

/-- Every registry entry leads to a room that carries the entry's key as its `ID`. -/
def OwnIds (σ : State) : Prop :=
  ∀ (id : Int) (p : Nat), σ.allRooms.lookup id = some p →
    ∃ r : Room, σ.heap[p]? = some r ∧ r.ID = id

/-- Every room the directory points at is in the registry under its own `ID`. -/
def Registered (σ : State) : Prop :=
  ∀ (s : Int) (p : Nat), σ.clientsRooms.lookup s = some p →
    ∃ r : Room, σ.heap[p]? = some r ∧ σ.allRooms.lookup r.ID = some p

/-- The ids given to rooms so far are positive `int` values. -/
def IdsInRange (σ : State) : Prop := ∀ r ∈ σ.heap, 1 ≤ r.ID ∧ r.ID ≤ 2 ^ 63 - 1

/-- The registry holds the single id `k`, for the room at `p`, whose only
member is session 1, and session 1 is the only entry of the directory. -/
def SingleRoom (k : Int) (p : Nat) (σ : State) : Prop :=
  (∀ (id : Int) (q : Nat), σ.allRooms.lookup id = some q ↔ id = k ∧ q = p) ∧
  (∃ r : Room, σ.heap[p]? = some r ∧ r.Members = [1]) ∧
  (∀ (s : Int) (q : Nat), σ.clientsRooms.lookup s = some q ↔ s = 1 ∧ q = p)

deriving instance DecidableEq for Except

/-! ## Fixtures for concrete evaluations -/

/-- An environment in which every send succeeds and `range` visits `visit`. -/
def Env.quiet (visit : List Entry) : Env := ⟨fun _ => none, 0, visit⟩

/-- The inbound message with the given chat id, first name and text. -/
def mkMessage (chatId : Int) (firstName text : String) : UpdateResultMessageT :=
  ⟨⟨chatId, firstName⟩, ⟨chatId⟩, text⟩

/-- A state with one full room: id 1, capacity 2, members 1 and 2. -/
def exampleState : State :=
  ⟨[⟨1, "Alpha", 2, [1, 2], false⟩], AList.insert 2 0 (AList.insert 1 0 ∅), AList.insert 1 0 ∅⟩

/-- Routing a batch of messages in order, every send succeeding and `range`
visiting the registry in the stored order; the first panic aborts the run. -/
def routeAll (σ : State) : List UpdateResultMessageT → Except Panic (State × List Event)
  | [] => .ok (σ, [])
  | item :: rest =>
    match route (Env.quiet σ.allRooms.entries) σ item with
    | .error e => .error e
    | .ok (σ1, evs) =>
      match routeAll σ1 rest with
      | .error e => .error e
      | .ok (σ2, evs2) => .ok (σ2, evs ++ evs2)

/-! ## Theorems -/

/-! ### Output and text lemmas -/

theorem sends_sendMessage (env : Env) (k : Nat) (chatId : Int) (text : String) :
    sends (sendMessage env k chatId text) = [(chatId, text)] := by
  unfold sendMessage
  cases env.sendErr k <;> simp [sends]

theorem sends_log_cons (line : String) (evs : List Event) :
    sends (Event.log line :: evs) = sends evs := rfl

theorem sends_append (a b : List Event) : sends (a ++ b) = sends a ++ sends b := by
  induction a with
  | nil => rfl
  | cons e rest ih =>
    cases e with
    | send c t => simp [sends, ih]
    | log l => simp [sends, ih]

theorem Fields_empty : Fields "" = [] := rfl

theorem text_ne_empty_of_fields {s : String} {t : String} {rest : List String}
    (h : Fields s = t :: rest) : s ≠ "" := by
  rintro rfl
  simp [Fields_empty] at h

theorem fieldsLoop_eq_nil (cs cur : List Char) :
    fieldsLoop cs cur = [] ↔ cur = [] ∧ ∀ c ∈ cs, isSpace c = true := by
  induction cs generalizing cur with
  | nil => cases cur <;> simp [fieldsLoop]
  | cons c cs ih =>
    unfold fieldsLoop
    by_cases hc : isSpace c = true
    · cases cur with
      | nil => simp [hc, ih]
      | cons d ds => simp [hc]
    · simp [hc, ih]

/-- `strings.Fields` yields no field exactly for texts made of white space only. -/
theorem Fields_eq_nil (s : String) : Fields s = [] ↔ ∀ c ∈ s.data, isSpace c = true := by
  simp [Fields, fieldsLoop_eq_nil]

/-! ### The dispatch tables -/

theorem roomDispatcher_lookup (t : String) :
    roomDispatcher.lookup t =
      if t = "/quit" then some RoomMessageHandler.quitRoomHandler
      else if t = "/info" then some RoomMessageHandler.roomInfoHandler
      else if t = defaultHandlerMessage then some RoomMessageHandler.messageRoomHandler
      else none := by
  simp only [roomDispatcher, List.lookup]
  by_cases h1 : t = "/quit"
  · subst h1; rfl
  by_cases h2 : t = "/info"
  · subst h2; rfl
  by_cases h3 : t = defaultHandlerMessage
  · subst h3; rfl
  have e1 : (t == "/quit") = false := by simpa using h1
  have e2 : (t == "/info") = false := by simpa using h2
  have e3 : (t == defaultHandlerMessage) = false := by simpa using h3
  simp [e1, e2, e3, h1, h2, h3]

theorem mainDispatcher_lookup (t : String) :
    mainDispatcher.lookup t =
      if t = "/start" then some MainMessageHandler.startHandler
      else if t = "/help" then some MainMessageHandler.helpHandler
      else if t = "/create" then some MainMessageHandler.createRoomHandler
      else if t = "/join" then some MainMessageHandler.joinRoomHandler
      else if t = "/list" then some MainMessageHandler.listHandler
      else if t = defaultHandlerMessage then some MainMessageHandler.defaultMainHandler
      else none := by
  simp only [mainDispatcher, List.lookup]
  by_cases h1 : t = "/start"
  · subst h1; rfl
  by_cases h2 : t = "/help"
  · subst h2; rfl
  by_cases h3 : t = "/create"
  · subst h3; rfl
  by_cases h4 : t = "/join"
  · subst h4; rfl
  by_cases h5 : t = "/list"
  · subst h5; rfl
  by_cases h6 : t = defaultHandlerMessage
  · subst h6; rfl
  have e1 : (t == "/start") = false := by simpa using h1
  have e2 : (t == "/help") = false := by simpa using h2
  have e3 : (t == "/create") = false := by simpa using h3
  have e4 : (t == "/join") = false := by simpa using h4
  have e5 : (t == "/list") = false := by simpa using h5
  have e6 : (t == defaultHandlerMessage) = false := by simpa using h6
  simp [e1, e2, e3, e4, e5, e6, h1, h2, h3, h4, h5, h6]

/-- In room mode the router calls the room-table entry of the first token, or
the table default. -/
theorem dispatch_room (σ : State) (item : UpdateResultMessageT) (t : String)
    (rest : List String) (room : Nat) (htoken : Fields item.Text = t :: rest)
    (hroom : σ.clientsRooms.lookup item.Chat.Id = some room) :
    dispatch σ item =
      .ok (some (.room ((roomDispatcher.lookup t).getD .messageRoomHandler) room)) := by
  have hne := text_ne_empty_of_fields htoken
  unfold dispatch
  rw [if_neg hne, htoken]
  simp only [List.getElem?_cons_zero, hroom]
  cases h : roomDispatcher.lookup t with
  | some v => simp
  | none => simp; rfl

/-- In lobby mode the router calls the global-table entry of the first token,
or the table default. -/
theorem dispatch_lobby (σ : State) (item : UpdateResultMessageT) (t : String)
    (rest : List String) (htoken : Fields item.Text = t :: rest)
    (hroom : σ.clientsRooms.lookup item.Chat.Id = none) :
    dispatch σ item =
      .ok (some (.main ((mainDispatcher.lookup t).getD .defaultMainHandler))) := by
  have hne := text_ne_empty_of_fields htoken
  unfold dispatch
  rw [if_neg hne, htoken]
  simp only [List.getElem?_cons_zero, hroom]
  cases h : mainDispatcher.lookup t with
  | some v => simp
  | none => simp; rfl

/-- The router skips a message exactly when its text is empty. -/
theorem dispatch_eq_none_iff (σ : State) (item : UpdateResultMessageT) :
    dispatch σ item = .ok none ↔ item.Text = "" := by
  constructor
  · intro h
    by_contra hne
    cases hf : Fields item.Text with
    | nil => simp [dispatch, hne, hf] at h
    | cons t rest =>
      cases hl : σ.clientsRooms.lookup item.Chat.Id with
      | some room => rw [dispatch_room σ item t rest room hf hl] at h; simp at h
      | none => rw [dispatch_lobby σ item t rest hf hl] at h; simp at h
  · intro h
    simp [dispatch, h]

/-- The router panics exactly on a non-empty text without any field. -/
theorem dispatch_panics_iff (σ : State) (item : UpdateResultMessageT) (e : Panic) :
    dispatch σ item = .error e ↔
      e = .indexOutOfRange ∧ item.Text ≠ "" ∧ Fields item.Text = [] := by
  by_cases hne : item.Text = ""
  · simp [dispatch, hne]
  · cases hf : Fields item.Text with
    | nil =>
      simp only [dispatch, hne, hf, if_false, List.getElem?_nil]
      constructor
      · intro h
        injection h with h
        exact ⟨h.symm, hne, trivial⟩
      · rintro ⟨rfl, -, -⟩
        rfl
    | cons t rest =>
      cases hl : σ.clientsRooms.lookup item.Chat.Id with
      | some room => rw [dispatch_room σ item t rest room hf hl]; simp
      | none => rw [dispatch_lobby σ item t rest hf hl]; simp

/-- C3: with first token `t`, a sender that is in the directory gets the
room-table handler bound to `t` (`/quit`, `/info`) or else the broadcast
handler, never a global handler; a sender that is not in the directory gets
the global-table handler bound to `t` (`/start`, `/help`, `/create`, `/join`,
`/list`) or else the default global handler, never a room handler.  Inside a
room `/join` and `/create` are relayed as chat and leave registry, directory
and rooms as they were. -/
theorem C3_two_table_dispatch (env : Env) (σ : State) (item : UpdateResultMessageT)
    (t : String) (rest : List String) (htoken : Fields item.Text = t :: rest) :
    (∀ room, σ.clientsRooms.lookup item.Chat.Id = some room →
      dispatch σ item =
        .ok (some (.room ((roomDispatcher.lookup t).getD .messageRoomHandler) room)) ∧
      (roomDispatcher.lookup t).getD .messageRoomHandler =
        (if t = "/quit" then RoomMessageHandler.quitRoomHandler
         else if t = "/info" then RoomMessageHandler.roomInfoHandler
         else RoomMessageHandler.messageRoomHandler) ∧
      (∀ roomInstance, t = "/join" ∨ t = "/create" → σ.heap[room]? = some roomInstance →
        route env σ item = .ok (σ, messageRoomLoop env item roomInstance.Members 0))) ∧
    (σ.clientsRooms.lookup item.Chat.Id = none →
      dispatch σ item =
        .ok (some (.main ((mainDispatcher.lookup t).getD .defaultMainHandler))) ∧
      (mainDispatcher.lookup t).getD .defaultMainHandler =
        (if t = "/start" then MainMessageHandler.startHandler
         else if t = "/help" then MainMessageHandler.helpHandler
         else if t = "/create" then MainMessageHandler.createRoomHandler
         else if t = "/join" then MainMessageHandler.joinRoomHandler
         else if t = "/list" then MainMessageHandler.listHandler
         else MainMessageHandler.defaultMainHandler)) := by
  refine ⟨fun room hroom => ⟨dispatch_room σ item t rest room htoken hroom, ?_, ?_⟩,
    fun hroom => ⟨dispatch_lobby σ item t rest htoken hroom, ?_⟩⟩
  · rw [roomDispatcher_lookup]
    split_ifs <;> rfl
  · intro roomInstance ht hheap
    have hd := dispatch_room σ item t rest room htoken hroom
    have hl : (roomDispatcher.lookup t).getD .messageRoomHandler =
        RoomMessageHandler.messageRoomHandler := by
      rw [roomDispatcher_lookup]
      rcases ht with rfl | rfl <;> rfl
    rw [hl] at hd
    simp [route, hd, Invocation.call, RoomMessageHandler.call, messageRoomHandler, hheap]
  · rw [mainDispatcher_lookup]
    split_ifs <;> rfl

/-- Witness for C3: session 2 sits in room 0 and sends `/join 5`; session 9 is in the lobby. -/
theorem C3_two_table_dispatch_witness :
    Fields (mkMessage 2 "Bob" "/join 5").Text = ["/join", "5"] ∧
    route (Env.quiet []) ⟨[⟨1, "Alpha", 2, [1, 2], false⟩], AList.insert 2 0 ∅, AList.insert 1 0 ∅⟩
        (mkMessage 2 "Bob" "/join 5") =
      .ok (⟨[⟨1, "Alpha", 2, [1, 2], false⟩], AList.insert 2 0 ∅, AList.insert 1 0 ∅⟩,
        [Event.send 1 "Bob: /join 5"]) :=
  ⟨by decide,
   ((C3_two_table_dispatch (Env.quiet [])
      ⟨[⟨1, "Alpha", 2, [1, 2], false⟩], AList.insert 2 0 ∅, AList.insert 1 0 ∅⟩
      (mkMessage 2 "Bob" "/join 5") "/join" ["5"] (by decide)).1 0 (by decide)).2.2
    ⟨1, "Alpha", 2, [1, 2], false⟩ (Or.inl rfl) (by decide)⟩

/-- C4 (failing input): a text that is not empty but holds white space only
passes the empty-text guard, `strings.Fields` returns no field, and indexing
its first element panics: no handler runs and the poll loop is aborted. -/
theorem C4_whitespace_text_panics (env : Env) (σ : State) (sender : UpdateResultFromT)
    (chat : UpdateResultChatT) :
    dispatch σ ⟨sender, chat, " "⟩ = .error .indexOutOfRange ∧
      route env σ ⟨sender, chat, " "⟩ = .error .indexOutOfRange :=
  ⟨rfl, rfl⟩

/-! ### Join -/

theorem notFound_ne_full (x : String) :
    "Комната с ID " ++ x ++ " не найдена" ≠ "Комната переполнена" := by
  intro h
  have h2 := congrArg (fun s : String => s.data.take 9) h
  simp [String.data_append] at h2

theorem notFound_ne_missing (x : String) :
    "Комната с ID " ++ x ++ " не найдена" ≠ "Необходимо ввести ID комнаты" := by
  intro h
  have h2 := congrArg (fun s : String => s.data.head?) h
  simp [String.data_append] at h2

theorem notFound_ne_invalid (x : String) :
    "Комната с ID " ++ x ++ " не найдена" ≠ "Неверно введен ID комнаты" := by
  intro h
  have h2 := congrArg (fun s : String => s.data.head?) h
  simp [String.data_append] at h2

theorem joined_ne_failure (name x : String) :
    "Вы успешно зашли в комнату " ++ name ≠ "Необходимо ввести ID комнаты" ∧
    "Вы успешно зашли в комнату " ++ name ≠ "Неверно введен ID комнаты" ∧
    "Вы успешно зашли в комнату " ++ name ≠ "Комната с ID " ++ x ++ " не найдена" ∧
    "Вы успешно зашли в комнату " ++ name ≠ "Комната переполнена" := by
  refine ⟨?_, ?_, ?_, ?_⟩ <;>
  · intro h
    have h2 := congrArg (fun s : String => s.data.head?) h
    simp [String.data_append] at h2

theorem not_short_of_arg {command : List String} {arg : String}
    (h : command[1]? = some arg) : ¬ command.length < 2 := by
  intro hlt
  have hnone : command[1]? = none := List.getElem?_eq_none (by omega)
  rw [hnone] at h
  exact Option.noConfusion h

/-- C5: the four failure modes of `/join` (argument missing, argument not
accepted by `Atoi`, no room under the id, room with `Limit <= len(Members)`)
leave heap, registry and directory unchanged and send exactly one reply, to
the sender; the four reply texts are pairwise distinct. -/
theorem C5_join_failures (env : Env) (message : UpdateResultMessageT) (σ : State) :
    ((Fields message.Text).length < 2 →
      joinRoomHandler env message σ =
        .ok (σ, sendMessage env 0 message.Chat.Id "Необходимо ввести ID комнаты")) ∧
    (∀ arg v e, (Fields message.Text)[1]? = some arg → Atoi arg = (v, some e) →
      joinRoomHandler env message σ =
        .ok (σ, sendMessage env 0 message.Chat.Id "Неверно введен ID комнаты")) ∧
    (∀ arg chatID, (Fields message.Text)[1]? = some arg → Atoi arg = (chatID, none) →
      σ.allRooms.lookup chatID = none →
      joinRoomHandler env message σ =
        .ok (σ, sendMessage env 0 message.Chat.Id
          ("Комната с ID " ++ Itoa chatID ++ " не найдена"))) ∧
    (∀ arg chatID roomPointer roomInstance,
      (Fields message.Text)[1]? = some arg → Atoi arg = (chatID, none) →
      σ.allRooms.lookup chatID = some roomPointer → σ.heap[roomPointer]? = some roomInstance →
      roomInstance.Limit ≤ (roomInstance.Members.length : Int) →
      joinRoomHandler env message σ =
        .ok (σ, sendMessage env 0 message.Chat.Id "Комната переполнена")) ∧
    (∀ text, sends (sendMessage env 0 message.Chat.Id text) = [(message.Chat.Id, text)]) ∧
    (∀ chatID : Int,
      ("Необходимо ввести ID комнаты" : String) ≠ "Неверно введен ID комнаты" ∧
      "Необходимо ввести ID комнаты" ≠ "Комната с ID " ++ Itoa chatID ++ " не найдена" ∧
      ("Необходимо ввести ID комнаты" : String) ≠ "Комната переполнена" ∧
      "Неверно введен ID комнаты" ≠ "Комната с ID " ++ Itoa chatID ++ " не найдена" ∧
      ("Неверно введен ID комнаты" : String) ≠ "Комната переполнена" ∧
      "Комната с ID " ++ Itoa chatID ++ " не найдена" ≠ "Комната переполнена") := by
  refine ⟨?_, ?_, ?_, ?_, ?_, ?_⟩
  · intro h
    simp [joinRoomHandler, h]
  · intro arg v e harg hatoi
    have hlen := not_short_of_arg harg
    simp [joinRoomHandler, hlen, harg, hatoi]
  · intro arg chatID harg hatoi hnone
    have hlen := not_short_of_arg harg
    simp [joinRoomHandler, hlen, harg, hatoi, hnone]
  · intro arg chatID roomPointer roomInstance harg hatoi hsome hheap hfull
    have hlen := not_short_of_arg harg
    simp [joinRoomHandler, hlen, harg, hatoi, hsome, hheap, hfull]
  · intro text
    exact sends_sendMessage env 0 message.Chat.Id text
  · intro chatID
    exact ⟨by decide, (notFound_ne_missing _).symm, by decide, (notFound_ne_invalid _).symm,
      by decide, notFound_ne_full _⟩

/-- Witness for C5: the four failure modes on a registry holding one full room with id 1. -/
theorem C5_join_failures_witness :
    joinRoomHandler (Env.quiet []) (mkMessage 3 "Eve" "/join") exampleState =
      .ok (exampleState, [Event.send 3 "Необходимо ввести ID комнаты"]) ∧
    joinRoomHandler (Env.quiet []) (mkMessage 3 "Eve" "/join 1x") exampleState =
      .ok (exampleState, [Event.send 3 "Неверно введен ID комнаты"]) ∧
    joinRoomHandler (Env.quiet []) (mkMessage 3 "Eve" "/join 7") exampleState =
      .ok (exampleState, [Event.send 3 "Комната с ID 7 не найдена"]) ∧
    joinRoomHandler (Env.quiet []) (mkMessage 3 "Eve" "/join 1") exampleState =
      .ok (exampleState, [Event.send 3 "Комната переполнена"]) :=
  ⟨(C5_join_failures (Env.quiet []) (mkMessage 3 "Eve" "/join") exampleState).1 (by decide),
   (C5_join_failures (Env.quiet []) (mkMessage 3 "Eve" "/join 1x") exampleState).2.1
      "1x" 0 .errSyntax (by decide) (by decide),
   (C5_join_failures (Env.quiet []) (mkMessage 3 "Eve" "/join 7") exampleState).2.2.1
      "7" 7 (by decide) (by decide) (by decide),
   (C5_join_failures (Env.quiet []) (mkMessage 3 "Eve" "/join 1") exampleState).2.2.2.1
      "1" 1 0 ⟨1, "Alpha", 2, [1, 2], false⟩ (by decide) (by decide) (by decide) (by decide)
      (by decide)⟩

/-- C6: when the argument parses to the id of a registered room with
`len(Members) < Limit`, `/join` appends the sender at the end of that room's
member list, leaves every other room, the registry and every other directory
entry unchanged, maps the sender to that room and sends one confirmation
naming the room; and whenever `/join` changes the state or sends a
confirmation, it was in this case. -/
theorem C6_join_success (env : Env) (message : UpdateResultMessageT) (σ : State) :
    (∀ arg chatID roomPointer roomInstance,
      (Fields message.Text)[1]? = some arg → Atoi arg = (chatID, none) →
      σ.allRooms.lookup chatID = some roomPointer → σ.heap[roomPointer]? = some roomInstance →
      (roomInstance.Members.length : Int) < roomInstance.Limit →
      ∃ σ1 evs, joinRoomHandler env message σ = .ok (σ1, evs) ∧
        σ1.heap = σ.heap.set roomPointer
          { roomInstance with Members := roomInstance.Members ++ [message.Chat.Id] } ∧
        σ1.heap[roomPointer]? =
          some { roomInstance with Members := roomInstance.Members ++ [message.Chat.Id] } ∧
        (∀ q, q ≠ roomPointer → σ1.heap[q]? = σ.heap[q]?) ∧
        σ1.allRooms = σ.allRooms ∧
        σ1.clientsRooms = σ.clientsRooms.insert message.Chat.Id roomPointer ∧
        σ1.clientsRooms.lookup message.Chat.Id = some roomPointer ∧
        (∀ s, s ≠ message.Chat.Id → σ1.clientsRooms.lookup s = σ.clientsRooms.lookup s) ∧
        sends evs = [(message.Chat.Id, "Вы успешно зашли в комнату " ++ roomInstance.Name)]) ∧
    (∀ σ1 evs, joinRoomHandler env message σ = .ok (σ1, evs) →
      (σ1 ≠ σ ∨ ∃ name, sends evs = [(message.Chat.Id, "Вы успешно зашли в комнату " ++ name)]) →
      ∃ arg chatID roomPointer roomInstance,
        (Fields message.Text)[1]? = some arg ∧ Atoi arg = (chatID, none) ∧
        σ.allRooms.lookup chatID = some roomPointer ∧ σ.heap[roomPointer]? = some roomInstance ∧
        (roomInstance.Members.length : Int) < roomInstance.Limit) := by
  constructor
  · intro arg chatID roomPointer roomInstance harg hatoi hsome hheap hfree
    have hlen := not_short_of_arg harg
    have hnot : ¬ roomInstance.Limit ≤ (roomInstance.Members.length : Int) := not_le.mpr hfree
    have hlt : roomPointer < σ.heap.length := by
      rcases List.getElem?_eq_some_iff.mp hheap with ⟨h, -⟩
      exact h
    have hjoin : joinRoomHandler env message σ =
        .ok ({ heap := σ.heap.set roomPointer
                 { roomInstance with Members := roomInstance.Members ++ [message.Chat.Id] },
               clientsRooms := σ.clientsRooms.insert message.Chat.Id roomPointer,
               allRooms := σ.allRooms },
             Event.log ("Client " ++ Itoa message.Chat.Id ++ " entered the room " ++
                 roomInstance.Name) ::
               sendMessage env 0 message.Chat.Id
                 ("Вы успешно зашли в комнату " ++ roomInstance.Name)) := by
      simp only [joinRoomHandler, hlen, harg, hatoi, hsome, hheap, hnot, if_false]
    refine ⟨_, _, hjoin, rfl, ?_, ?_, rfl, rfl, ?_, ?_, ?_⟩
    · simp [hlt]
    · intro q hq
      simp [List.getElem?_set, Ne.symm hq]
    · simp
    · intro s hs
      simp [AList.lookup_insert_ne hs]
    · rw [sends_log_cons, sends_sendMessage]
  · intro σ1 evs hres hsucc
    unfold joinRoomHandler at hres
    by_cases hlen : (Fields message.Text).length < 2
    · exfalso
      simp only [hlen, if_true] at hres
      injection hres with hres
      injection hres with h1 h2
      subst h1 h2
      rcases hsucc with h | ⟨name, h⟩
      · exact h rfl
      · rw [sends_sendMessage] at h
        simp only [List.cons.injEq, Prod.mk.injEq, and_true, true_and] at h
        exact (joined_ne_failure name "").1 h.symm
    · simp only [hlen, if_false] at hres
      cases harg : (Fields message.Text)[1]? with
      | none => simp [harg] at hres
      | some arg =>
        simp only [harg] at hres
        rcases hatoi : Atoi arg with ⟨chatID, err⟩
        cases err with
        | some e =>
          exfalso
          simp only [hatoi] at hres
          injection hres with hres
          injection hres with h1 h2
          subst h1 h2
          rcases hsucc with h | ⟨name, h⟩
          · exact h rfl
          · rw [sends_sendMessage] at h
            simp only [List.cons.injEq, Prod.mk.injEq, and_true, true_and] at h
            exact (joined_ne_failure name "").2.1 h.symm
        | none =>
          simp only [hatoi] at hres
          cases hsome : σ.allRooms.lookup chatID with
          | none =>
            exfalso
            simp only [hsome] at hres
            injection hres with hres
            injection hres with h1 h2
            subst h1 h2
            rcases hsucc with h | ⟨name, h⟩
            · exact h rfl
            · rw [sends_sendMessage] at h
              simp only [List.cons.injEq, Prod.mk.injEq, and_true, true_and] at h
              exact (joined_ne_failure name (Itoa chatID)).2.2.1 h.symm
          | some roomPointer =>
            simp only [hsome] at hres
            cases hheap : σ.heap[roomPointer]? with
            | none => simp [hheap] at hres
            | some roomInstance =>
              simp only [hheap] at hres
              by_cases hfull : roomInstance.Limit ≤ (roomInstance.Members.length : Int)
              · exfalso
                simp only [hfull, if_true] at hres
                injection hres with hres
                injection hres with h1 h2
                subst h1 h2
                rcases hsucc with h | ⟨name, h⟩
                · exact h rfl
                · rw [sends_sendMessage] at h
                  simp only [List.cons.injEq, Prod.mk.injEq, and_true, true_and] at h
                  exact (joined_ne_failure name "").2.2.2 h.symm
              · exact ⟨arg, chatID, roomPointer, roomInstance, rfl, hatoi, hsome, hheap,
                  not_le.mp hfull⟩

/-- Witness for C6: session 2 joins room 1, which holds one member of two. -/
theorem C6_join_success_witness :
    ∃ σ1 evs, joinRoomHandler (Env.quiet []) (mkMessage 2 "Bob" "/join 1")
        ⟨[⟨1, "Alpha", 2, [1], false⟩], AList.insert 1 0 ∅, AList.insert 1 0 ∅⟩ = .ok (σ1, evs) ∧
      σ1.heap = [⟨1, "Alpha", 2, [1, 2], false⟩] ∧
      σ1.clientsRooms.lookup 2 = some 0 ∧
      sends evs = [(2, "Вы успешно зашли в комнату Alpha")] :=
  let ⟨σ1, evs, h, hheap, _, _, _, _, hdir, _, hs⟩ :=
    (C6_join_success (Env.quiet []) (mkMessage 2 "Bob" "/join 1")
      ⟨[⟨1, "Alpha", 2, [1], false⟩], AList.insert 1 0 ∅, AList.insert 1 0 ∅⟩).1
      "1" 1 0 ⟨1, "Alpha", 2, [1], false⟩ (by decide) (by decide) (by decide) (by decide)
      (by decide)
  ⟨σ1, evs, h, hheap, hdir, hs⟩

/-! ### Broadcast -/

theorem sends_messageRoomLoop (env : Env) (message : UpdateResultMessageT) (members : List Int)
    (k : Nat) :
    sends (messageRoomLoop env message members k) =
      (members.filter (fun m => decide (m ≠ message.Chat.Id))).map
        (fun m => (m, message.From.FirstName ++ ": " ++ message.Text)) := by
  induction members generalizing k with
  | nil => rfl
  | cons m rest ih =>
    unfold messageRoomLoop
    by_cases h : m = message.Chat.Id
    · simp [h, ih]
    · simp only [h, if_false, decide_not, List.filter_cons, decide_False, Bool.not_false,
        if_true, List.map_cons, sends]
      cases env.sendErr k with
      | none => simpa using ih (k + 1)
      | some e => simpa [sends] using ih (k + 1)

/-- C10: the broadcast handler makes exactly one send per member other than
the sender, in member-list order, each with text `FirstName + ": " + Text`;
nothing goes to the sender; the sends are the same whatever the outcome of
each send; heap, registry and directory are unchanged. -/
theorem C10_broadcast (env : Env) (message : UpdateResultMessageT) (room : Nat) (σ : State)
    (roomInstance : Room) (hroom : σ.heap[room]? = some roomInstance) :
    ∃ evs, messageRoomHandler env message room σ = .ok (σ, evs) ∧
      sends evs =
        (roomInstance.Members.filter (fun m => decide (m ≠ message.Chat.Id))).map
          (fun m => (m, message.From.FirstName ++ ": " ++ message.Text)) ∧
      (∀ e ∈ sends evs, e.1 ≠ message.Chat.Id) ∧
      (∀ env2 : Env, ∃ evs2, messageRoomHandler env2 message room σ = .ok (σ, evs2) ∧
        sends evs2 = sends evs) := by
  refine ⟨messageRoomLoop env message roomInstance.Members 0, ?_, ?_, ?_, ?_⟩
  · simp [messageRoomHandler, hroom]
  · exact sends_messageRoomLoop env message roomInstance.Members 0
  · intro e he
    rw [sends_messageRoomLoop] at he
    simp only [List.mem_map, List.mem_filter] at he
    rcases he with ⟨m, ⟨-, hm⟩, rfl⟩
    simpa using hm
  · intro env2
    refine ⟨messageRoomLoop env2 message roomInstance.Members 0, ?_, ?_⟩
    · simp [messageRoomHandler, hroom]
    · rw [sends_messageRoomLoop, sends_messageRoomLoop]

/-- Witness for C10: session 2 writes `hi` in a room of sessions 1, 2 and 3 while
the first send fails. -/
theorem C10_broadcast_witness :
    ∃ evs, messageRoomHandler ⟨fun k => if k = 0 then some "timeout" else none, 0, []⟩
        (mkMessage 2 "Bob" "hi") 0
        ⟨[⟨1, "Alpha", 3, [1, 2, 3], false⟩], ∅, ∅⟩ =
          .ok (⟨[⟨1, "Alpha", 3, [1, 2, 3], false⟩], ∅, ∅⟩, evs) ∧
      sends evs = [(1, "Bob: hi"), (3, "Bob: hi")] :=
  let ⟨evs, h, hs, _, _⟩ :=
    C10_broadcast ⟨fun k => if k = 0 then some "timeout" else none, 0, []⟩
      (mkMessage 2 "Bob" "hi") 0 ⟨[⟨1, "Alpha", 3, [1, 2, 3], false⟩], ∅, ∅⟩
      ⟨1, "Alpha", 3, [1, 2, 3], false⟩ (by decide)
  ⟨evs, h, hs⟩

/-! ### Sweep -/

/-- The sweep loop never panics on valid pointers; it erases exactly the ids
visited with an empty room and logs only. -/
theorem cleanRoomsLoop_spec (heap : List Room) (l : List Entry)
    (hvalid : ∀ e ∈ l, e.2 < heap.length) (m : RoomMap) :
    ∃ m1 evs, cleanRoomsLoop heap l m = .ok (m1, evs) ∧ sends evs = [] ∧
      (∀ id, (∃ p r, (⟨id, p⟩ : Entry) ∈ l ∧ heap[p]? = some r ∧ r.Members = []) →
        m1.lookup id = none) ∧
      (∀ id, ¬ (∃ p r, (⟨id, p⟩ : Entry) ∈ l ∧ heap[p]? = some r ∧ r.Members = []) →
        m1.lookup id = m.lookup id) := by
  induction l generalizing m with
  | nil => exact ⟨m, [], rfl, rfl, by simp, by simp⟩
  | cons e rest ih =>
    obtain ⟨roomID, roomPointer⟩ := e
    have hp : roomPointer < heap.length := hvalid ⟨roomID, roomPointer⟩ (List.mem_cons_self _ _)
    have hrest : ∀ e ∈ rest, e.2 < heap.length := fun e he => hvalid e (List.mem_cons_of_mem _ he)
    have hget : heap[roomPointer]? = some heap[roomPointer] := List.getElem?_eq_getElem hp
    by_cases hempty : heap[roomPointer].Members.length = 0
    · obtain ⟨m1, evs, hloop, hsends, hnone, hsame⟩ := ih hrest (m.erase roomID)
      refine ⟨m1, Event.log ("Room " ++ heap[roomPointer].Name ++ "is empty. delete it.") :: evs,
        ?_, ?_, ?_, ?_⟩
      · simp only [cleanRoomsLoop, hget, hempty, if_true, hloop]
      · rw [sends_log_cons, hsends]
      · rintro id ⟨p, r, hmem, hr, hnil⟩
        by_cases hin : ∃ p r, (⟨id, p⟩ : Entry) ∈ rest ∧ heap[p]? = some r ∧ r.Members = []
        · exact hnone id hin
        · rw [hsame id hin]
          rcases List.mem_cons.mp hmem with heq | hmem
          · cases heq
            exact AList.lookup_erase _ _
          · exact absurd ⟨p, r, hmem, hr, hnil⟩ hin
      · intro id hid
        have hne : id ≠ roomID := by
          rintro rfl
          exact hid ⟨roomPointer, heap[roomPointer], List.mem_cons_self _ _, hget,
            List.length_eq_zero.mp hempty⟩
        have hin : ¬ ∃ p r, (⟨id, p⟩ : Entry) ∈ rest ∧ heap[p]? = some r ∧ r.Members = [] := by
          rintro ⟨p, r, hmem, hr, hnil⟩
          exact hid ⟨p, r, List.mem_cons_of_mem _ hmem, hr, hnil⟩
        rw [hsame id hin, AList.lookup_erase_ne hne]
    · obtain ⟨m1, evs, hloop, hsends, hnone, hsame⟩ := ih hrest m
      have hiff : ∀ id, (∃ p r, (⟨id, p⟩ : Entry) ∈ ⟨roomID, roomPointer⟩ :: rest ∧
            heap[p]? = some r ∧ r.Members = []) ↔
          ∃ p r, (⟨id, p⟩ : Entry) ∈ rest ∧ heap[p]? = some r ∧ r.Members = [] := by
        intro id
        constructor
        · rintro ⟨p, r, hmem, hr, hnil⟩
          rcases List.mem_cons.mp hmem with heq | hmem
          · cases heq
            rw [hget] at hr
            cases hr
            simp [hnil] at hempty
          · exact ⟨p, r, hmem, hr, hnil⟩
        · rintro ⟨p, r, hmem, hr, hnil⟩
          exact ⟨p, r, List.mem_cons_of_mem _ hmem, hr, hnil⟩
      refine ⟨m1, evs, ?_, hsends, ?_, ?_⟩
      · simp only [cleanRoomsLoop, hget, hempty, if_false, hloop]
      · intro id hid
        exact hnone id ((hiff id).mp hid)
      · intro id hid
        exact hsame id (fun h => hid ((hiff id).mpr h))

/-- The sweep on a registry of valid pointers: it keeps exactly the ids whose
room has members and touches nothing else. -/
theorem cleanRooms_spec (σ : State) (visit : List Entry)
    (hvisit : visit.Perm σ.allRooms.entries)
    (hvalid : ∀ e ∈ σ.allRooms.entries, e.2 < σ.heap.length) :
    ∃ σ1 evs, cleanRooms visit σ = .ok (σ1, evs) ∧
      σ1.heap = σ.heap ∧ σ1.clientsRooms = σ.clientsRooms ∧ sends evs = [] ∧
      (∀ id p, σ1.allRooms.lookup id = some p ↔
        σ.allRooms.lookup id = some p ∧ ∃ r, σ.heap[p]? = some r ∧ r.Members ≠ []) := by
  have hmem : ∀ id p, (⟨id, p⟩ : Entry) ∈ visit ↔ σ.allRooms.lookup id = some p := by
    intro id p
    rw [hvisit.mem_iff, ← AList.mem_lookup_iff]
    exact Iff.rfl
  have hv : ∀ e ∈ visit, e.2 < σ.heap.length := fun e he => hvalid e (hvisit.mem_iff.mp he)
  obtain ⟨m1, evs, hloop, hsends, hnone, hsame⟩ := cleanRoomsLoop_spec σ.heap visit hv σ.allRooms
  refine ⟨{ σ with allRooms := m1 }, evs, ?_, rfl, rfl, hsends, ?_⟩
  · simp only [cleanRooms, hloop]
  · intro id p
    constructor
    · intro h
      have hnot : ¬ ∃ p r, (⟨id, p⟩ : Entry) ∈ visit ∧ σ.heap[p]? = some r ∧ r.Members = [] := by
        intro hex
        rw [show ({ σ with allRooms := m1 } : State).allRooms = m1 from rfl, hnone id hex] at h
        exact Option.noConfusion h
      have hold : σ.allRooms.lookup id = some p := by
        rw [← hsame id hnot]
        exact h
      have hp : p < σ.heap.length := hv ⟨id, p⟩ ((hmem id p).mpr hold)
      refine ⟨hold, σ.heap[p], List.getElem?_eq_getElem hp, ?_⟩
      intro hnil
      exact hnot ⟨p, σ.heap[p], (hmem id p).mpr hold, List.getElem?_eq_getElem hp, hnil⟩
    · rintro ⟨hold, r, hr, hne⟩
      have hnot : ¬ ∃ p r, (⟨id, p⟩ : Entry) ∈ visit ∧ σ.heap[p]? = some r ∧ r.Members = [] := by
        rintro ⟨q, r2, hq, hr2, hnil⟩
        have hq2 := (hmem id q).mp hq
        rw [hold] at hq2
        cases hq2
        rw [hr] at hr2
        cases hr2
        exact hne hnil
      show m1.lookup id = some p
      rw [hsame id hnot]
      exact hold

/-- C9: the sweep returns a registry that maps an id to a room exactly when
the old registry did and that room's member list is not empty; the rooms
themselves (the heap) and the directory are untouched, and nothing is sent. -/
theorem C9_cleanRooms (σ : State) (visit : List Entry)
    (hvisit : visit.Perm σ.allRooms.entries)
    (hvalid : ∀ e ∈ σ.allRooms.entries, e.2 < σ.heap.length) :
    ∃ σ1 evs, cleanRooms visit σ = .ok (σ1, evs) ∧
      σ1.heap = σ.heap ∧ σ1.clientsRooms = σ.clientsRooms ∧ sends evs = [] ∧
      (∀ id p, σ1.allRooms.lookup id = some p ↔
        σ.allRooms.lookup id = some p ∧ ∃ r, σ.heap[p]? = some r ∧ r.Members ≠ []) :=
  cleanRooms_spec σ visit hvisit hvalid

/-- Witness for C9: of two registered rooms the empty one (id 2) is removed. -/
theorem C9_cleanRooms_witness :
    ∃ σ1 evs, cleanRooms [⟨1, 0⟩, ⟨2, 1⟩]
        ⟨[⟨1, "Alpha", 2, [5], false⟩, ⟨2, "Beta", 2, [], false⟩], AList.insert 5 0 ∅,
          AList.insert 2 1 (AList.insert 1 0 ∅)⟩ = .ok (σ1, evs) ∧
      σ1.allRooms.lookup 1 = some 0 ∧ σ1.allRooms.lookup 2 = none :=
  let ⟨σ1, evs, h, _, _, _, _⟩ :=
    C9_cleanRooms ⟨[⟨1, "Alpha", 2, [5], false⟩, ⟨2, "Beta", 2, [], false⟩], AList.insert 5 0 ∅,
        AList.insert 2 1 (AList.insert 1 0 ∅)⟩ [⟨1, 0⟩, ⟨2, 1⟩]
      (by decide) (by decide)
  ⟨σ1, evs, h, by
    cases h
    decide, by
    cases h
    decide⟩

/-! ### The removal loop of quit -/

theorem getElem?_mid (P T : List Int) (q : Int) (i : Nat) (hi : i = P.length) :
    (P ++ q :: T)[i]? = some q := by
  subst hi
  rw [List.getElem?_append_right (le_refl _)]
  simp

theorem set_mid (P T : List Int) (q x : Int) (i : Nat) (hi : i = P.length) :
    (P ++ q :: T).set i x = P ++ x :: T := by
  subst hi
  simp

theorem take_mid (P T : List Int) (i : Nat) (hi : i = P.length) : (P ++ T).take i = P := by
  subst hi
  simp

theorem quitStep_no_match (c : Int) (arr : List Int) (len i : Nat) (v : Int)
    (hv : arr[i]? = some v) (hne : v ≠ c) : quitStep c (arr, len) i = .ok (arr, len) := by
  simp [quitStep, hv, hne]

theorem quitStep_match (c : Int) (arr : List Int) (len i : Nat) (last : Int)
    (hv : arr[i]? = some c) (hi : i < len) (hlast : arr[len - 1]? = some last) :
    quitStep c (arr, len) i = .ok ((arr.set i last).set (len - 1) 0, len - 1) := by
  have h0 : len ≠ 0 := by omega
  have h1 : ¬ len ≤ i := by omega
  simp [quitStep, hv, h0, h1, hlast]

theorem quitStep_match_panics (c : Int) (arr : List Int) (len i : Nat)
    (hv : arr[i]? = some c) (hi : len ≤ i) :
    quitStep c (arr, len) i = .error .indexOutOfRange := by
  by_cases h0 : len = 0
  · simp [quitStep, hv, h0]
  · simp [quitStep, hv, h0, hi]

theorem quitLoop_succ (c : Int) (r i : Nat) (s : List Int × Nat) :
    quitLoop c (r + 1) i s =
      match quitStep c s i with
      | .error e => .error e
      | .ok s1 => quitLoop c r (i + 1) s1 := rfl

theorem quitLoop_add (c : Int) (r1 r2 i : Nat) (s : List Int × Nat) :
    quitLoop c (r1 + r2) i s =
      match quitLoop c r1 i s with
      | .error e => .error e
      | .ok s1 => quitLoop c r2 (i + r1) s1 := by
  induction r1 generalizing i s with
  | zero => simp [quitLoop]
  | succ r ih =>
    rw [show r + 1 + r2 = (r + r2) + 1 by omega]
    simp only [quitLoop]
    cases quitStep c s i with
    | error e => rfl
    | ok s1 =>
      simp only []
      rw [ih, show i + 1 + r = i + (r + 1) by omega]

theorem quitLoop_no_match (c : Int) (Q : List Int) (hQ : c ∉ Q) (P R : List Int)
    (len i : Nat) (hi : i = P.length) :
    quitLoop c Q.length i (P ++ (Q ++ R), len) = .ok (P ++ (Q ++ R), len) := by
  induction Q generalizing P i with
  | nil => rfl
  | cons q Q ih =>
    have hq : q ≠ c := fun h => hQ (h ▸ List.mem_cons_self _ _)
    have hQ1 : c ∉ Q := fun h => hQ (List.mem_cons_of_mem _ h)
    have hget : (P ++ (q :: Q ++ R))[i]? = some q := getElem?_mid P (Q ++ R) q i hi
    simp only [List.length_cons, quitLoop, quitStep_no_match c _ len i q hget hq]
    have h := ih hQ1 (P ++ [q]) (i + 1) (by simp [hi])
    simpa using h

/-- A sender that is not a member: the loop changes nothing. -/
theorem quitMembers_not_mem (c : Int) (members : List Int) (h : c ∉ members) :
    quitMembers c members = .ok members := by
  have h1 := quitLoop_no_match c members h [] [] members.length 0 rfl
  simp only [List.nil_append, List.append_nil] at h1
  simp [quitMembers, h1]

/-- The sender is the last member and occurs nowhere else. -/
theorem quitMembers_last (c : Int) (A : List Int) (hA : c ∉ A) :
    quitMembers c (A ++ [c]) = .ok A := by
  have h1 := quitLoop_no_match c A hA [] [c] (A.length + 1) 0 rfl
  simp only [List.nil_append] at h1
  have hstep := quitStep_match c (A ++ [c]) (A.length + 1) A.length c
    (getElem?_mid A [] c _ rfl) (by omega) (getElem?_mid A [] c _ (by omega))
  rw [show A.length + 1 - 1 = A.length by omega, set_mid A [] c c _ rfl,
    set_mid A [] c 0 _ rfl] at hstep
  unfold quitMembers
  rw [List.length_append, List.length_singleton, quitLoop_add, h1]
  simp only [quitLoop, Nat.zero_add, hstep]
  rw [take_mid A [0] _ rfl]

/-- The sender occurs once, before the last member, and is not 0: the last
member takes its place. -/
theorem quitMembers_mid (c l : Int) (A B : List Int) (hA : c ∉ A) (hB : c ∉ B)
    (h0 : c ≠ 0) : quitMembers c (A ++ c :: (B ++ [l])) = .ok (A ++ l :: B) := by
  have hlen : (A ++ c :: (B ++ [l])).length = A.length + ((B.length + 1) + 1) := by
    simp
  have e0 : A ++ c :: (B ++ [l]) = (A ++ c :: B) ++ l :: [] := by simp
  have e1 : A ++ l :: (B ++ [l]) = (A ++ l :: B) ++ l :: [] := by simp
  have e2 : (A ++ l :: B) ++ 0 :: [] = (A ++ [l]) ++ (B ++ [0]) := by simp
  have h1 := quitLoop_no_match c A hA [] (c :: (B ++ [l])) (A.length + ((B.length + 1) + 1))
    0 rfl
  simp only [List.nil_append] at h1
  have hstep := quitStep_match c (A ++ c :: (B ++ [l])) (A.length + ((B.length + 1) + 1))
    A.length l (getElem?_mid A _ c _ rfl) (by omega)
    (by rw [e0]; exact getElem?_mid _ _ l _ (by simp))
  rw [set_mid A _ c l _ rfl, e1, set_mid _ [] l 0 _ (by simp), e2] at hstep
  have h2 := quitLoop_no_match c B hB (A ++ [l]) [0] (A.length + ((B.length + 1) + 1) - 1)
    (A.length + 1) (by simp)
  have hfin := quitStep_no_match c ((A ++ [l]) ++ (B ++ [0]))
    (A.length + ((B.length + 1) + 1) - 1) (A.length + 1 + B.length) 0
    (by rw [← e2]; exact getElem?_mid _ _ 0 _ (by simp; omega)) (Ne.symm h0)
  unfold quitMembers
  rw [hlen, quitLoop_add, h1]
  simp only [Nat.zero_add]
  rw [quitLoop_succ, hstep]
  simp only []
  rw [quitLoop_add, h2]
  simp only []
  rw [quitLoop_succ, hfin]
  simp only [quitLoop]
  rw [← e2, take_mid _ _ _ (by simp)]

/-- Sender 0 occurs once, before the last member: when the loop reaches the
last index it reads the 0 it wrote there itself and indexes past the
truncated slice. -/
theorem quitMembers_zero_panics (l : Int) (A B : List Int) (hA : (0 : Int) ∉ A)
    (hB : (0 : Int) ∉ B) :
    quitMembers 0 (A ++ 0 :: (B ++ [l])) = .error .indexOutOfRange := by
  have hlen : (A ++ (0 : Int) :: (B ++ [l])).length = A.length + ((B.length + 1) + 1) := by
    simp
  have e0 : A ++ (0 : Int) :: (B ++ [l]) = (A ++ 0 :: B) ++ l :: [] := by simp
  have e1 : A ++ l :: (B ++ [l]) = (A ++ l :: B) ++ l :: [] := by simp
  have e2 : (A ++ l :: B) ++ (0 : Int) :: [] = (A ++ [l]) ++ (B ++ [0]) := by simp
  have h1 := quitLoop_no_match 0 A hA [] (0 :: (B ++ [l])) (A.length + ((B.length + 1) + 1))
    0 rfl
  simp only [List.nil_append] at h1
  have hstep := quitStep_match 0 (A ++ 0 :: (B ++ [l])) (A.length + ((B.length + 1) + 1))
    A.length l (getElem?_mid A _ 0 _ rfl) (by omega)
    (by rw [e0]; exact getElem?_mid _ _ l _ (by simp))
  rw [set_mid A _ 0 l _ rfl, e1, set_mid _ [] l 0 _ (by simp), e2] at hstep
  have h2 := quitLoop_no_match 0 B hB (A ++ [l]) [0] (A.length + ((B.length + 1) + 1) - 1)
    (A.length + 1) (by simp)
  have hfin := quitStep_match_panics 0 ((A ++ [l]) ++ (B ++ [0]))
    (A.length + ((B.length + 1) + 1) - 1) (A.length + 1 + B.length)
    (by rw [← e2]; exact getElem?_mid _ _ 0 _ (by simp; omega)) (by omega)
  unfold quitMembers
  rw [hlen, quitLoop_add, h1]
  simp only [Nat.zero_add]
  rw [quitLoop_succ, hstep]
  simp only []
  rw [quitLoop_add, h2]
  simp only []
  rw [quitLoop_succ, hfin]

/-- On a duplicate-free member list the removal loop, when it does not
panic, returns the members other than the sender, each exactly once. -/
theorem quitMembers_perm_erase (c : Int) (members res : List Int) (hnd : members.Nodup)
    (hres : quitMembers c members = .ok res) : res.Perm (members.erase c) := by
  by_cases hmem : c ∈ members
  · obtain ⟨A, T, rfl⟩ := List.append_of_mem hmem
    have hA : c ∉ A := fun h => (List.nodup_append.mp hnd).2.2 h (List.mem_cons_self _ _)
    have hT : c ∉ T := (List.nodup_cons.mp (List.nodup_append.mp hnd).2.1).1
    have herase : (A ++ c :: T).erase c = A ++ T := by
      rw [List.erase_append_right _ hA, List.erase_cons_head]
    rw [herase]
    rcases List.eq_nil_or_concat T with rfl | ⟨B, l, rfl⟩
    · rw [quitMembers_last c A hA] at hres
      cases hres
      simp
    · have hB : c ∉ B := fun h => hT (by simp [h])
      by_cases h0 : c = 0
      · subst h0
        rw [List.concat_eq_append, quitMembers_zero_panics l A B hA hB] at hres
        cases hres
      · rw [List.concat_eq_append, quitMembers_mid c l A B hA hB h0] at hres
        cases hres
        rw [List.concat_eq_append]
        exact List.Perm.append_left A (List.perm_append_singleton l B).symm
  · rw [quitMembers_not_mem c members hmem] at hres
    cases hres
    rw [List.erase_of_not_mem hmem]

/-- A sender other than 0 always gets through the removal loop of a
duplicate-free member list. -/
theorem quitMembers_ok_of_ne_zero (c : Int) (members : List Int) (hnd : members.Nodup)
    (h0 : c ≠ 0) : ∃ res, quitMembers c members = .ok res := by
  by_cases hmem : c ∈ members
  · obtain ⟨A, T, rfl⟩ := List.append_of_mem hmem
    have hA : c ∉ A := fun h => (List.nodup_append.mp hnd).2.2 h (List.mem_cons_self _ _)
    have hT : c ∉ T := (List.nodup_cons.mp (List.nodup_append.mp hnd).2.1).1
    rcases List.eq_nil_or_concat T with rfl | ⟨B, l, rfl⟩
    · exact ⟨A, quitMembers_last c A hA⟩
    · have hB : c ∉ B := fun h => hT (by simp [h])
      rw [List.concat_eq_append]
      exact ⟨_, quitMembers_mid c l A B hA hB h0⟩
  · exact ⟨members, quitMembers_not_mem c members hmem⟩

/-! ### Failing inputs of quit and create -/

/-- C7 (failing inputs): routed from the empty state, session 0 creates a
room, session 7 joins it and session 0 sends `/quit`: the handler panics
instead of removing session 0, sending a reply and returning.  On a member
list that holds the sender twice before another member, both occurrences are
removed instead of one. -/
theorem C7_quit_failing_inputs :
    routeAll State.init [mkMessage 0 "Ann" "/create", mkMessage 7 "Bob" "/join 1",
        mkMessage 0 "Ann" "/quit"] = .error .indexOutOfRange ∧
    (∀ env : Env, ∃ evs,
      quitRoomHandler env (mkMessage 5 "Eve" "/quit") 0
          ⟨[⟨1, "Alpha", 10, [5, 5, 7], true⟩], AList.insert 5 0 ∅, AList.insert 1 0 ∅⟩ =
        .ok (⟨[⟨1, "Alpha", 10, [7], true⟩], ∅, AList.insert 1 0 ∅⟩, evs)) := by
  refine ⟨by decide, fun env => ⟨_, rfl⟩⟩

/-- C8 (failing input): with members `[0, 7]` and sender 0 the loop removes
index 0, writes 0 into the vacated last slot, and at index 1 reads that 0
through the slice it ranges over, takes it for the sender and indexes the
truncated slice of length 1 at 1: the handler panics. -/
theorem C8_quit_panics (env : Env) :
    quitStep 0 ([0, 7], 2) 0 = .ok ([7, 0], 1) ∧
    quitStep 0 ([7, 0], 1) 1 = .error .indexOutOfRange ∧
    quitMembers 0 [0, 7] = .error .indexOutOfRange ∧
    quitRoomHandler env (mkMessage 0 "Ann" "/quit") 0
        ⟨[⟨1, "ChackChack", 10, [0, 7], true⟩], AList.insert 7 0 (AList.insert 0 0 ∅),
          AList.insert 1 0 ∅⟩ = .error .indexOutOfRange :=
  ⟨by decide, by decide, by decide, rfl⟩

/-- A capacity argument that is not integer text: the error reply is sent and
the room is created all the same, with the 0 returned by the failed `Atoi` as
its limit. -/
theorem create_unparsed_limit_example :
    route (Env.quiet []) State.init (mkMessage 1 "Ann" "/create Alpha x") =
      .ok (⟨[⟨1, "Alpha", 0, [1], false⟩], AList.insert 1 0 ∅, AList.insert 1 0 ∅⟩,
        [Event.send 1 "Не правильно введен лимит для комнаты",
         Event.log "create room: 1Alpha",
         Event.send 1 "Вы создали комнату: Alpha\nID комнаты: 1\nЛимит комнаты: 0"]) :=
  rfl

/-- C2 (failing input): from the empty state `/create Alpha 0` registers a room
with one member and limit 0, more members than its limit allows; the join
handler treats that very room as full. -/
theorem C2_create_exceeds_limit :
    route (Env.quiet []) State.init (mkMessage 1 "Ann" "/create Alpha 0") =
      .ok (⟨[⟨1, "Alpha", 0, [1], false⟩], AList.insert 1 0 ∅, AList.insert 1 0 ∅⟩,
        [Event.log "create room: 1Alpha",
         Event.send 1 "Вы создали комнату: Alpha\nID комнаты: 1\nЛимит комнаты: 0"]) ∧
    ¬ WithinLimits ⟨[⟨1, "Alpha", 0, [1], false⟩], AList.insert 1 0 ∅, AList.insert 1 0 ∅⟩ ∧
    route (Env.quiet [⟨1, 0⟩])
        ⟨[⟨1, "Alpha", 0, [1], false⟩], AList.insert 1 0 ∅, AList.insert 1 0 ∅⟩
        (mkMessage 2 "Bob" "/join 1") =
      .ok (⟨[⟨1, "Alpha", 0, [1], false⟩], AList.insert 1 0 ∅, AList.insert 1 0 ∅⟩,
        [Event.send 2 "Комната переполнена"]) := by
  refine ⟨rfl, fun h => ?_, rfl⟩
  have h1 := h 1 0 ⟨1, "Alpha", 0, [1], false⟩ rfl rfl
  exact absurd h1 (by decide)

/-! ### What each handler does to the state -/

theorem joinRoomHandler_result (env : Env) (message : UpdateResultMessageT) (σ σ1 : State)
    (evs : List Event) (h : joinRoomHandler env message σ = .ok (σ1, evs)) :
    σ1 = σ ∨ ∃ chatID roomPointer roomInstance,
      σ.allRooms.lookup chatID = some roomPointer ∧ σ.heap[roomPointer]? = some roomInstance ∧
      (roomInstance.Members.length : Int) < roomInstance.Limit ∧
      σ1 = { heap := σ.heap.set roomPointer
               { roomInstance with Members := roomInstance.Members ++ [message.Chat.Id] },
             clientsRooms := σ.clientsRooms.insert message.Chat.Id roomPointer,
             allRooms := σ.allRooms } := by
  unfold joinRoomHandler at h
  by_cases hlen : (Fields message.Text).length < 2
  · simp only [hlen, if_true] at h
    injection h with h
    injection h with h1 h2
    exact Or.inl h1.symm
  · simp only [hlen, if_false] at h
    cases harg : (Fields message.Text)[1]? with
    | none => simp [harg] at h
    | some arg =>
      simp only [harg] at h
      rcases hatoi : Atoi arg with ⟨chatID, err⟩
      cases err with
      | some e =>
        simp only [hatoi] at h
        injection h with h
        injection h with h1 h2
        exact Or.inl h1.symm
      | none =>
        simp only [hatoi] at h
        cases hsome : σ.allRooms.lookup chatID with
        | none =>
          simp only [hsome] at h
          injection h with h
          injection h with h1 h2
          exact Or.inl h1.symm
        | some roomPointer =>
          simp only [hsome] at h
          cases hheap : σ.heap[roomPointer]? with
          | none => simp [hheap] at h
          | some roomInstance =>
            simp only [hheap] at h
            by_cases hfull : roomInstance.Limit ≤ (roomInstance.Members.length : Int)
            · simp only [hfull, if_true] at h
              injection h with h
              injection h with h1 h2
              exact Or.inl h1.symm
            · simp only [hfull, if_false] at h
              injection h with h
              injection h with h1 h2
              exact Or.inr ⟨chatID, roomPointer, roomInstance, hsome, hheap, not_le.mp hfull,
                h1.symm⟩

theorem createRoomHandler_result (env : Env) (message : UpdateResultMessageT) (σ σ1 : State)
    (evs : List Event) (h : createRoomHandler env message σ = .ok (σ1, evs)) :
    ∃ newRoom nextID, newRoom.Members = [message.Chat.Id] ∧
      newRoom.Limit =
        (if (Fields message.Text).length ≥ 3 then Atoi ((Fields message.Text).getD 2 "")
         else (defaultRoomLimit, none)).1 ∧
      σ1 = { heap := σ.heap ++ [newRoom],
             clientsRooms := σ.clientsRooms.insert message.Chat.Id σ.heap.length,
             allRooms := σ.allRooms.insert nextID σ.heap.length } := by
  unfold createRoomHandler at h
  injection h with h
  injection h with h1 h2
  exact ⟨_, _, rfl, rfl, h1.symm⟩

theorem quitRoomHandler_result (env : Env) (message : UpdateResultMessageT) (room : Nat)
    (σ σ1 : State) (evs : List Event)
    (h : quitRoomHandler env message room σ = .ok (σ1, evs)) :
    ∃ roomValue members, σ.heap[room]? = some roomValue ∧
      quitMembers message.Chat.Id roomValue.Members = .ok members ∧
      σ1 = { heap := σ.heap.set room { roomValue with Members := members },
             clientsRooms := σ.clientsRooms.erase message.Chat.Id,
             allRooms := σ.allRooms } := by
  unfold quitRoomHandler at h
  cases hheap : σ.heap[room]? with
  | none => simp [hheap] at h
  | some roomValue =>
    simp only [hheap] at h
    cases hq : quitMembers message.Chat.Id roomValue.Members with
    | error e => simp [hq] at h
    | ok members =>
      simp only [hq] at h
      injection h with h
      injection h with h1 h2
      exact ⟨roomValue, members, rfl, hq, h1.symm⟩

/-- The global handlers other than create and join return the state they got. -/
theorem main_readonly (handler : MainMessageHandler) (env : Env)
    (message : UpdateResultMessageT) (σ σ1 : State) (evs : List Event)
    (hc : handler ≠ .createRoomHandler) (hj : handler ≠ .joinRoomHandler)
    (h : MainMessageHandler.call handler env message σ = .ok (σ1, evs)) : σ1 = σ := by
  cases handler with
  | startHandler =>
    simp only [MainMessageHandler.call, startHandler] at h
    injection h with h
    injection h with h1 h2
    exact h1.symm
  | helpHandler =>
    simp only [MainMessageHandler.call, helpHandler] at h
    injection h with h
    injection h with h1 h2
    exact h1.symm
  | createRoomHandler => exact absurd rfl hc
  | joinRoomHandler => exact absurd rfl hj
  | listHandler =>
    simp only [MainMessageHandler.call, listHandler] at h
    cases hl : listLoop σ.heap env.visit 0 "" with
    | error e => simp [hl] at h
    | ok res =>
      simp only [hl] at h
      injection h with h
      injection h with h1 h2
      exact h1.symm
  | defaultMainHandler =>
    simp only [MainMessageHandler.call, defaultMainHandler] at h
    cases hl : randomMessages[env.intn % randomMessages.length]? with
    | none => simp [hl] at h
    | some text =>
      simp only [hl] at h
      injection h with h
      injection h with h1 h2
      exact h1.symm

/-- The room handlers other than quit return the state they got. -/
theorem room_readonly (handler : RoomMessageHandler) (env : Env)
    (message : UpdateResultMessageT) (room : Nat) (σ σ1 : State) (evs : List Event)
    (hq : handler ≠ .quitRoomHandler)
    (h : RoomMessageHandler.call handler env message room σ = .ok (σ1, evs)) : σ1 = σ := by
  cases handler with
  | messageRoomHandler =>
    simp only [RoomMessageHandler.call, messageRoomHandler] at h
    cases hl : σ.heap[room]? with
    | none => simp [hl] at h
    | some r =>
      simp only [hl] at h
      injection h with h
      injection h with h1 h2
      exact h1.symm
  | quitRoomHandler => exact absurd rfl hq
  | roomInfoHandler =>
    simp only [RoomMessageHandler.call, roomInfoHandler] at h
    cases hl : σ.heap[room]? with
    | none => simp [hl] at h
    | some r =>
      simp only [hl] at h
      injection h with h
      injection h with h1 h2
      exact h1.symm



/-! ### The consistency invariant -/

theorem heap_set_lookup (heap : List Room) (p : Nat) (r r1 : Room) (h : heap[p]? = some r)
    (q : Nat) (x : Room) :
    (heap.set p r1)[q]? = some x ↔ (q = p ∧ x = r1) ∨ (q ≠ p ∧ heap[q]? = some x) := by
  have hlt : p < heap.length := (List.getElem?_eq_some_iff.mp h).1
  by_cases hq : q = p
  · subst hq
    simp [hlt, eq_comm]
  · simp [List.getElem?_set, hq, Ne.symm hq]

theorem heap_append_lookup (heap : List Room) (r1 : Room) (q : Nat) (x : Room) :
    (heap ++ [r1])[q]? = some x ↔ (q = heap.length ∧ x = r1) ∨ heap[q]? = some x := by
  rcases Nat.lt_trichotomy q heap.length with hlt | heq | hgt
  · rw [List.getElem?_append_left hlt]
    constructor
    · exact Or.inr
    · rintro (⟨h, -⟩ | h)
      · omega
      · exact h
  · subst heq
    simp [eq_comm]
  · have h1 : (heap ++ [r1])[q]? = none := List.getElem?_eq_none (by simp; omega)
    have h2 : heap[q]? = none := List.getElem?_eq_none (by omega)
    rw [h1, h2]
    constructor
    · intro h; cases h
    · rintro (⟨h, -⟩ | h)
      · omega
      · cases h

theorem inv_init : Inv State.init := by
  refine ⟨?_, ?_, ?_⟩
  · intro e he
    cases he
  · intro p r h
    simp [State.init] at h
  · intro s p
    simp [State.init]

theorem inv_join (σ : State) (hinv : Inv σ) (id : Int) (p : Nat) (r : Room)
    (hdir : σ.clientsRooms.lookup id = none) (hheap : σ.heap[p]? = some r) :
    Inv { heap := σ.heap.set p { r with Members := r.Members ++ [id] },
          clientsRooms := σ.clientsRooms.insert id p,
          allRooms := σ.allRooms } := by
  have hnot : ∀ (q : Nat) (x : Room), σ.heap[q]? = some x → id ∉ x.Members := by
    intro q x hx hmem
    have := (hinv.directory_iff id q).mpr ⟨x, hx, hmem⟩
    rw [hdir] at this
    cases this
  refine ⟨?_, ?_, ?_⟩
  · intro e he
    simpa using hinv.registry_valid e he
  · intro q x hx
    rcases (heap_set_lookup σ.heap p r _ hheap q x).mp hx with ⟨-, rfl⟩ | ⟨-, hx⟩
    · have hnd := hinv.members_nodup p r hheap
      have := hnot p r hheap
      exact List.Nodup.append hnd (List.nodup_singleton id) (by simpa using this)
    · exact hinv.members_nodup q x hx
  · intro s q
    show AList.lookup s (σ.clientsRooms.insert id p) = some q ↔
      ∃ x, (σ.heap.set p { r with Members := r.Members ++ [id] })[q]? = some x ∧ s ∈ x.Members
    by_cases hs : s = id
    · subst hs
      rw [AList.lookup_insert]
      constructor
      · intro h
        cases h
        exact ⟨_, (heap_set_lookup σ.heap p r _ hheap p _).mpr (Or.inl ⟨rfl, rfl⟩), by simp⟩
      · rintro ⟨x, hx, hmem⟩
        rcases (heap_set_lookup σ.heap p r _ hheap q x).mp hx with ⟨rfl, -⟩ | ⟨-, hx⟩
        · rfl
        · exact absurd hmem (hnot q x hx)
    · rw [AList.lookup_insert_ne hs, hinv.directory_iff s q]
      constructor
      · rintro ⟨x, hx, hmem⟩
        by_cases hq : q = p
        · subst hq
          rw [hheap] at hx
          cases hx
          exact ⟨_, (heap_set_lookup σ.heap q r _ hheap q _).mpr (Or.inl ⟨rfl, rfl⟩),
            by simp [hmem]⟩
        · exact ⟨x, (heap_set_lookup σ.heap p r _ hheap q x).mpr (Or.inr ⟨hq, hx⟩), hmem⟩
      · rintro ⟨x, hx, hmem⟩
        rcases (heap_set_lookup σ.heap p r _ hheap q x).mp hx with ⟨rfl, rfl⟩ | ⟨-, hx⟩
        · refine ⟨r, hheap, ?_⟩
          simpa [hs] using hmem
        · exact ⟨x, hx, hmem⟩

theorem inv_create (σ : State) (hinv : Inv σ) (id : Int) (newRoom : Room) (nextID : Int)
    (hdir : σ.clientsRooms.lookup id = none) (hm : newRoom.Members = [id]) :
    Inv { heap := σ.heap ++ [newRoom],
          clientsRooms := σ.clientsRooms.insert id σ.heap.length,
          allRooms := σ.allRooms.insert nextID σ.heap.length } := by
  have hnot : ∀ (q : Nat) (x : Room), σ.heap[q]? = some x → id ∉ x.Members := by
    intro q x hx hmem
    have := (hinv.directory_iff id q).mpr ⟨x, hx, hmem⟩
    rw [hdir] at this
    cases this
  refine ⟨?_, ?_, ?_⟩
  · intro e he
    show e.2 < (σ.heap ++ [newRoom]).length
    rw [List.length_append, List.length_singleton]
    have he1 : e ∈ (σ.allRooms.insert nextID σ.heap.length).entries := he
    rw [AList.insert_entries] at he1
    rcases List.mem_cons.mp he1 with rfl | he2
    · exact Nat.lt_succ_self _
    · have := hinv.registry_valid e ((List.kerase_sublist _ _).subset he2)
      omega
  · intro q x hx
    rcases (heap_append_lookup σ.heap newRoom q x).mp hx with ⟨-, rfl⟩ | hx
    · rw [hm]
      exact List.nodup_singleton id
    · exact hinv.members_nodup q x hx
  · intro s q
    show AList.lookup s (σ.clientsRooms.insert id σ.heap.length) = some q ↔
      ∃ x, (σ.heap ++ [newRoom])[q]? = some x ∧ s ∈ x.Members
    by_cases hs : s = id
    · subst hs
      rw [AList.lookup_insert]
      constructor
      · intro h
        cases h
        exact ⟨newRoom, (heap_append_lookup σ.heap newRoom _ _).mpr (Or.inl ⟨rfl, rfl⟩),
          by simp [hm]⟩
      · rintro ⟨x, hx, hmem⟩
        rcases (heap_append_lookup σ.heap newRoom q x).mp hx with ⟨rfl, -⟩ | hx
        · rfl
        · exact absurd hmem (hnot q x hx)
    · rw [AList.lookup_insert_ne hs, hinv.directory_iff s q]
      constructor
      · rintro ⟨x, hx, hmem⟩
        exact ⟨x, (heap_append_lookup σ.heap newRoom q x).mpr (Or.inr hx), hmem⟩
      · rintro ⟨x, hx, hmem⟩
        rcases (heap_append_lookup σ.heap newRoom q x).mp hx with ⟨-, rfl⟩ | hx
        · rw [hm] at hmem
          exact absurd (List.mem_singleton.mp hmem) hs
        · exact ⟨x, hx, hmem⟩

theorem inv_quit (σ : State) (hinv : Inv σ) (id : Int) (p : Nat) (r : Room)
    (members : List Int) (hdir : σ.clientsRooms.lookup id = some p)
    (hheap : σ.heap[p]? = some r) (hq : quitMembers id r.Members = .ok members) :
    Inv { heap := σ.heap.set p { r with Members := members },
          clientsRooms := σ.clientsRooms.erase id,
          allRooms := σ.allRooms } := by
  have hnd := hinv.members_nodup p r hheap
  have hperm := quitMembers_perm_erase id r.Members members hnd hq
  have hmem_iff : ∀ s, s ∈ members ↔ s ≠ id ∧ s ∈ r.Members := by
    intro s
    rw [hperm.mem_iff, hnd.mem_erase_iff]
  refine ⟨?_, ?_, ?_⟩
  · intro e he
    simpa using hinv.registry_valid e he
  · intro q x hx
    rcases (heap_set_lookup σ.heap p r _ hheap q x).mp hx with ⟨-, rfl⟩ | ⟨-, hx⟩
    · exact hperm.nodup_iff.mpr (hnd.erase id)
    · exact hinv.members_nodup q x hx
  · intro s q
    show AList.lookup s (σ.clientsRooms.erase id) = some q ↔
      ∃ x, (σ.heap.set p { r with Members := members })[q]? = some x ∧ s ∈ x.Members
    by_cases hs : s = id
    · subst hs
      rw [AList.lookup_erase]
      constructor
      · intro h
        cases h
      · rintro ⟨x, hx, hmem⟩
        exfalso
        rcases (heap_set_lookup σ.heap p r _ hheap q x).mp hx with ⟨-, rfl⟩ | ⟨hne, hx⟩
        · exact ((hmem_iff s).mp hmem).1 rfl
        · have := (hinv.directory_iff s q).mpr ⟨x, hx, hmem⟩
          rw [hdir] at this
          cases this
          exact hne rfl
    · rw [AList.lookup_erase_ne hs, hinv.directory_iff s q]
      constructor
      · rintro ⟨x, hx, hmem⟩
        by_cases hqp : q = p
        · subst hqp
          rw [hheap] at hx
          cases hx
          exact ⟨_, (heap_set_lookup σ.heap q r _ hheap q _).mpr (Or.inl ⟨rfl, rfl⟩),
            (hmem_iff s).mpr ⟨hs, hmem⟩⟩
        · exact ⟨x, (heap_set_lookup σ.heap p r _ hheap q x).mpr (Or.inr ⟨hqp, hx⟩), hmem⟩
      · rintro ⟨x, hx, hmem⟩
        rcases (heap_set_lookup σ.heap p r _ hheap q x).mp hx with ⟨rfl, rfl⟩ | ⟨-, hx⟩
        · exact ⟨r, hheap, ((hmem_iff s).mp hmem).2⟩
        · exact ⟨x, hx, hmem⟩

theorem inv_cleanRooms (σ σ1 : State) (visit : List Entry) (evs : List Event) (hinv : Inv σ)
    (hvisit : visit.Perm σ.allRooms.entries) (h : cleanRooms visit σ = .ok (σ1, evs)) :
    Inv σ1 := by
  obtain ⟨σ2, evs2, h2, hheap, hdir, -, hiff⟩ :=
    cleanRooms_spec σ visit hvisit hinv.registry_valid
  rw [h] at h2
  injection h2 with h2
  injection h2 with h3 h4
  subst h3
  refine ⟨?_, ?_, ?_⟩
  · rintro ⟨id, p⟩ he
    have hl : σ1.allRooms.lookup id = some p := AList.mem_lookup_iff.mpr he
    have hold := ((hiff id p).mp hl).1
    rw [hheap]
    exact hinv.registry_valid ⟨id, p⟩ (AList.mem_lookup_iff.mp hold)
  · intro p r hr
    rw [hheap] at hr
    exact hinv.members_nodup p r hr
  · intro s p
    rw [hheap, hdir]
    exact hinv.directory_iff s p



/-- A selected handler is a room handler on the sender's directory entry, or a
global handler for a sender without an entry. -/
theorem dispatch_some (σ : State) (item : UpdateResultMessageT) (inv : Invocation)
    (h : dispatch σ item = .ok (some inv)) :
    (∃ handler room, inv = .room handler room ∧
        σ.clientsRooms.lookup item.Chat.Id = some room) ∨
      (∃ handler, inv = .main handler ∧ σ.clientsRooms.lookup item.Chat.Id = none) := by
  by_cases hne : item.Text = ""
  · rw [(dispatch_eq_none_iff σ item).mpr hne] at h
    injection h with h
    cases h
  · cases hf : Fields item.Text with
    | nil =>
      rw [(dispatch_panics_iff σ item .indexOutOfRange).mpr ⟨rfl, hne, hf⟩] at h
      cases h
    | cons t rest =>
      cases hl : σ.clientsRooms.lookup item.Chat.Id with
      | some room =>
        rw [dispatch_room σ item t rest room hf hl] at h
        injection h with h
        injection h with h
        exact Or.inl ⟨_, room, h.symm, rfl⟩
      | none =>
        rw [dispatch_lobby σ item t rest hf hl] at h
        injection h with h
        injection h with h
        exact Or.inr ⟨_, h.symm, rfl⟩

/-- Routing one message keeps the state consistent. -/
theorem inv_route (env : Env) (σ σ1 : State) (item : UpdateResultMessageT) (evs : List Event)
    (hinv : Inv σ) (h : route env σ item = .ok (σ1, evs)) : Inv σ1 := by
  unfold route at h
  cases hd : dispatch σ item with
  | error e => simp [hd] at h
  | ok sel =>
    cases sel with
    | none =>
      simp only [hd] at h
      injection h with h
      injection h with h1 h2
      rw [← h1]
      exact hinv
    | some inv =>
      simp only [hd] at h
      rcases dispatch_some σ item inv hd with ⟨handler, room, rfl, hdir⟩ | ⟨handler, rfl, hdir⟩
      · simp only [Invocation.call] at h
        by_cases hq : handler = .quitRoomHandler
        · subst hq
          obtain ⟨r, members, hheap, hquit, rfl⟩ :=
            quitRoomHandler_result env item room σ σ1 evs h
          exact inv_quit σ hinv item.Chat.Id room r members hdir hheap hquit
        · rw [room_readonly handler env item room σ σ1 evs hq h]
          exact hinv
      · simp only [Invocation.call] at h
        by_cases hc : handler = .createRoomHandler
        · subst hc
          obtain ⟨newRoom, nextID, hm, -, rfl⟩ := createRoomHandler_result env item σ σ1 evs h
          exact inv_create σ hinv item.Chat.Id newRoom nextID hdir hm
        · by_cases hj : handler = .joinRoomHandler
          · subst hj
            rcases joinRoomHandler_result env item σ σ1 evs h with rfl | ⟨_, p, r, -, hheap, -, rfl⟩
            · exact hinv
            · exact inv_join σ hinv item.Chat.Id p r hdir hheap
          · rw [main_readonly handler env item σ σ1 evs hc hj h]
            exact hinv

/-- Every reachable state is consistent. -/
theorem inv_reachable (σ : State) (h : Reachable σ) : Inv σ := by
  induction h with
  | init => exact inv_init
  | sweep σ σ1 visit evs _ hvisit hclean ih => exact inv_cleanRooms σ σ1 visit evs ih hvisit hclean
  | route σ σ1 env item evs _ _ hroute ih => exact inv_route env σ σ1 item evs ih hroute

/-- C1: in every reachable state the registry and the directory point at
allocated rooms, and for every session `s` and every room `r` (at pointer
`p`): the directory maps `s` to `r` if and only if `s` is in the member list
of `r`; hence `s` is in the member list of at most one room. -/
theorem C1_directory_membership_consistent (σ : State) (h : Reachable σ) :
    (∀ id p, σ.allRooms.lookup id = some p → ∃ r, σ.heap[p]? = some r) ∧
    (∀ s p, σ.clientsRooms.lookup s = some p → ∃ r, σ.heap[p]? = some r) ∧
    (∀ (s : Int) (p : Nat) (r : Room), σ.heap[p]? = some r →
      (σ.clientsRooms.lookup s = some p ↔ s ∈ r.Members)) ∧
    (∀ (s : Int) (p q : Nat) (r1 r2 : Room), σ.heap[p]? = some r1 → σ.heap[q]? = some r2 →
      s ∈ r1.Members → s ∈ r2.Members → p = q) := by
  have hinv := inv_reachable σ h
  have hiff : ∀ (s : Int) (p : Nat) (r : Room), σ.heap[p]? = some r →
      (σ.clientsRooms.lookup s = some p ↔ s ∈ r.Members) := by
    intro s p r hr
    rw [hinv.directory_iff s p]
    constructor
    · rintro ⟨x, hx, hmem⟩
      rw [hr] at hx
      cases hx
      exact hmem
    · intro hmem
      exact ⟨r, hr, hmem⟩
  refine ⟨?_, ?_, hiff, ?_⟩
  · intro id p hl
    have hp : p < σ.heap.length := hinv.registry_valid ⟨id, p⟩ (AList.mem_lookup_iff.mp hl)
    exact ⟨σ.heap[p], List.getElem?_eq_getElem hp⟩
  · intro s p hl
    obtain ⟨r, hr, -⟩ := (hinv.directory_iff s p).mp hl
    exact ⟨r, hr⟩
  · intro s p q r1 r2 h1 h2 hm1 hm2
    have e1 := (hiff s p r1 h1).mpr hm1
    have e2 := (hiff s q r2 h2).mpr hm2
    rw [e1] at e2
    injection e2

/-- The state after session 1 created a room and session 2 joined it. -/
theorem reachable_example :
    Reachable ⟨[⟨1, "Alpha", 2, [1, 2], false⟩], AList.insert 2 0 (AList.insert 1 0 ∅),
      AList.insert 1 0 ∅⟩ :=
  Reachable.route ⟨[⟨1, "Alpha", 2, [1], false⟩], AList.insert 1 0 ∅, AList.insert 1 0 ∅⟩ _
    (Env.quiet [⟨1, 0⟩]) (mkMessage 2 "Bob" "/join 1") _
    (Reachable.route State.init _ (Env.quiet []) (mkMessage 1 "Ann" "/create Alpha 2") _
      Reachable.init (List.Perm.refl _) rfl)
    (List.Perm.refl _) rfl

/-- Witness for C1: after session 1 created a room and session 2 joined it, the
directory holds exactly the two members. -/
theorem C1_directory_membership_consistent_witness :
    Reachable exampleState ∧
    ∀ (s : Int) (p : Nat) (r : Room), exampleState.heap[p]? = some r →
      (exampleState.clientsRooms.lookup s = some p ↔ s ∈ r.Members) :=
  ⟨reachable_example, (C1_directory_membership_consistent exampleState reachable_example).2.2.1⟩

/-! ### Capacity -/

theorem quitStep_length (c : Int) (s s1 : List Int × Nat) (i : Nat)
    (h : quitStep c s i = .ok s1) : s1.1.length = s.1.length := by
  unfold quitStep at h
  cases hv : s.1[i]? with
  | none => simp [hv] at h
  | some value =>
    simp only [hv] at h
    by_cases hc : value = c
    · simp only [hc, if_true] at h
      by_cases h0 : s.2 = 0
      · simp [h0] at h
      · simp only [h0, if_false] at h
        by_cases hi : s.2 ≤ i
        · simp [hi] at h
        · simp only [hi, if_false] at h
          cases hl : s.1[s.2 - 1]? with
          | none => simp [hl] at h
          | some last =>
            simp only [hl] at h
            injection h with h
            rw [← h]
            simp
    · simp only [hc, if_false] at h
      injection h with h
      rw [h]

theorem quitLoop_length (c : Int) (r i : Nat) (s s1 : List Int × Nat)
    (h : quitLoop c r i s = .ok s1) : s1.1.length = s.1.length := by
  induction r generalizing i s with
  | zero =>
    simp only [quitLoop] at h
    injection h with h
    rw [h]
  | succ r ih =>
    rw [quitLoop_succ] at h
    cases hs : quitStep c s i with
    | error e => simp [hs] at h
    | ok s2 =>
      simp only [hs] at h
      rw [ih (i + 1) s2 h, quitStep_length c s s2 i hs]

/-- The removal loop never makes the member list longer. -/
theorem quitMembers_length_le (c : Int) (members res : List Int)
    (h : quitMembers c members = .ok res) : res.length ≤ members.length := by
  unfold quitMembers at h
  cases hl : quitLoop c members.length 0 (members, members.length) with
  | error e => simp [hl] at h
  | ok s1 =>
    obtain ⟨arr, len⟩ := s1
    simp only [hl] at h
    injection h with h
    have hlen := quitLoop_length c _ _ _ _ hl
    simp only at hlen
    rw [← h, List.length_take, ← hlen]
    exact Nat.min_le_right _ _

theorem withinLimits_init : WithinLimits State.init := by
  intro id p r h
  simp [State.init] at h

/-- Every handler keeps the registered rooms within their limits, provided
that the limit which a `/create` stores is at least 1. -/
theorem withinLimits_route (env : Env) (σ σ1 : State) (item : UpdateResultMessageT)
    (evs : List Event) (hprior : WithinLimits σ)
    (hcreate : dispatch σ item = .ok (some (.main .createRoomHandler)) →
      1 ≤ (createdRoom env item).Limit)
    (hroute : route env σ item = .ok (σ1, evs)) : WithinLimits σ1 := by
  unfold route at hroute
  cases hd : dispatch σ item with
  | error e => simp [hd] at hroute
  | ok sel =>
    cases sel with
    | none =>
      simp only [hd] at hroute
      injection hroute with h
      injection h with h1 h2
      rw [← h1]
      exact hprior
    | some inv =>
      simp only [hd] at hroute
      rcases dispatch_some σ item inv hd with ⟨handler, room, rfl, hdir⟩ | ⟨handler, rfl, hdir⟩
      · simp only [Invocation.call] at hroute
        by_cases hq : handler = .quitRoomHandler
        · subst hq
          obtain ⟨r, members, hheap, hquit, rfl⟩ :=
            quitRoomHandler_result env item room σ σ1 evs hroute
          intro id p x hl hx
          rcases (heap_set_lookup σ.heap room r _ hheap p x).mp hx with ⟨rfl, rfl⟩ | ⟨-, hx⟩
          · have h1 := hprior id p r hl hheap
            have h2 := quitMembers_length_le _ _ _ hquit
            show (members.length : Int) ≤ r.Limit
            omega
          · exact hprior id p x hl hx
        · rw [room_readonly handler env item room σ σ1 evs hq hroute]
          exact hprior
      · simp only [Invocation.call] at hroute
        by_cases hc : handler = .createRoomHandler
        · subst hc
          obtain ⟨newRoom, nextID, hm, hlim, rfl⟩ :=
            createRoomHandler_result env item σ σ1 evs hroute
          have hnew : (newRoom.Members.length : Int) ≤ newRoom.Limit := by
            have h1 : 1 ≤ newRoom.Limit := by
              rw [hlim]
              exact hcreate hd
            rw [hm]
            simpa using h1
          intro id p x hl hx
          rcases (heap_append_lookup σ.heap newRoom p x).mp hx with ⟨-, rfl⟩ | hx
          · exact hnew
          · have hp : p < σ.heap.length := (List.getElem?_eq_some_iff.mp hx).1
            have hl1 : AList.lookup id (σ.allRooms.insert nextID σ.heap.length) = some p := hl
            by_cases hid : id = nextID
            · subst hid
              rw [AList.lookup_insert] at hl1
              injection hl1 with hl1
              omega
            · rw [AList.lookup_insert_ne hid] at hl1
              exact hprior id p x hl1 hx
        · by_cases hj : handler = .joinRoomHandler
          · subst hj
            rcases joinRoomHandler_result env item σ σ1 evs hroute with
              rfl | ⟨chatID, q, r, hreg, hheap, hfree, rfl⟩
            · exact hprior
            · intro id p x hl hx
              rcases (heap_set_lookup σ.heap q r _ hheap p x).mp hx with ⟨rfl, rfl⟩ | ⟨-, hx⟩
              · show (((r.Members ++ [item.Chat.Id]).length : Nat) : Int) ≤ r.Limit
                rw [List.length_append, List.length_singleton]
                push_cast
                omega
              · exact hprior id p x hl hx
          · rw [main_readonly handler env item σ σ1 evs hc hj hroute]
            exact hprior

/-! ### Create -/

/-- The create handler never fails: it allocates `createdRoom`, registers it
under its id and assigns the sender to it. -/
theorem createRoomHandler_eq (env : Env) (message : UpdateResultMessageT) (σ : State) :
    ∃ evs, createRoomHandler env message σ =
      .ok ({ heap := σ.heap ++ [createdRoom env message],
             clientsRooms := σ.clientsRooms.insert message.Chat.Id σ.heap.length,
             allRooms := σ.allRooms.insert (createNextID env.visit) σ.heap.length }, evs) ∧
      sends evs =
        (if (Fields message.Text).length ≥ 3 ∧ (Atoi ((Fields message.Text).getD 2 "")).2 ≠ none
         then [(message.Chat.Id, "Не правильно введен лимит для комнаты")] else []) ++
        [(message.Chat.Id, "Вы создали комнату: " ++ (createdRoom env message).Name ++
          "\nID комнаты: " ++ Itoa (createdRoom env message).ID ++
          "\nЛимит комнаты: " ++ Itoa (createdRoom env message).Limit)] := by
  refine ⟨_, rfl, ?_⟩
  rw [sends_append, sends_log_cons, sends_sendMessage]
  congr 1
  by_cases h3 : (Fields message.Text).length ≥ 3
  · cases hp : (Atoi ((Fields message.Text).getD 2 "")).2 with
    | none =>
      simp only [h3, hp, if_true, ne_eq, not_true_eq_false, and_false, if_false]
      rfl
    | some e =>
      simp only [h3, hp, if_true, ne_eq, not_false_eq_true, and_self, reduceCtorEq]
      exact sends_sendMessage env 0 _ _
  · simp only [h3, if_false, false_and]
    rfl



theorem getLastD_eq_getLast (s : List Int) (h : s ≠ []) : s.getLastD 0 = s.getLast h := by
  cases s with
  | nil => exact absurd rfl h
  | cons a as => rfl

/-- After `sort.Ints` the last element of a non-empty slice is its maximum. -/
theorem sortInts_getLastD (l : List Int) (hne : l ≠ []) :
    (sortInts l).getLastD 0 ∈ l ∧ ∀ x ∈ l, x ≤ (sortInts l).getLastD 0 := by
  have hperm : (sortInts l).Perm l := List.perm_insertionSort _ l
  have hsorted : (sortInts l).Sorted (fun a b => a ≤ b) := List.sorted_insertionSort _ l
  have hne2 : sortInts l ≠ [] := fun h => hne (by
    have := hperm.length_eq
    rw [h] at this
    exact List.length_eq_zero.mp this.symm)
  have hlast : (sortInts l).getLastD 0 = (sortInts l).getLast hne2 :=
    getLastD_eq_getLast (sortInts l) hne2
  rw [hlast]
  refine ⟨hperm.mem_iff.mp (List.getLast_mem hne2), fun x hx => ?_⟩
  have hx2 : x ∈ sortInts l := hperm.mem_iff.mpr hx
  rw [← List.dropLast_append_getLast hne2] at hx2 hsorted
  rcases List.mem_append.mp hx2 with hin | hin
  · exact (List.pairwise_append.mp hsorted).2.2 x hin _ (List.mem_singleton_self _)
  · rw [List.mem_singleton.mp hin]

theorem wrapInt64_of_range (x : Int) (h0 : -(2 ^ 63) ≤ x) (h1 : x < 2 ^ 63) : wrapInt64 x = x := by
  unfold wrapInt64
  rw [Int.emod_eq_of_lt (by omega) (by omega)]
  omega

/-- The id picked by create is one more (in 64-bit arithmetic) than the
largest of 0 and the registered ids. -/
theorem createNextID_spec (visit : List Entry) :
    ∃ m : Int, createNextID visit = wrapInt64 (m + 1) ∧ 0 ≤ m ∧ (∀ e ∈ visit, e.1 ≤ m) ∧
      (m = 0 ∨ ∃ e ∈ visit, e.1 = m) := by
  have hne : List.replicate 10 (0 : Int) ++ visit.map (fun e => e.1) ≠ [] := by
    simp [List.replicate]
  obtain ⟨hmem, hmax⟩ := sortInts_getLastD _ hne
  refine ⟨(sortInts (List.replicate 10 (0 : Int) ++ visit.map (fun e => e.1))).getLastD 0,
    ?_, ?_, ?_, ?_⟩
  · have hlen : (List.replicate 10 (0 : Int) ++ visit.map (fun e => e.1)).length ≠ 0 := by
      simp
    simp only [createNextID, hlen, ne_eq, not_false_eq_true, if_true]
  · exact hmax 0 (by simp [List.replicate])
  · intro e he
    exact hmax e.1 (List.mem_append_right _ (List.mem_map_of_mem _ he))
  · rcases List.mem_append.mp hmem with h | h
    · exact Or.inl (List.eq_of_mem_replicate h)
    · obtain ⟨e, he, heq⟩ := List.mem_map.mp h
      exact Or.inr ⟨e, he, heq⟩

/-- Below the largest `int` the picked id is positive and larger than every
registered id. -/
theorem createNextID_fresh (visit : List Entry) (hsmall : ∀ e ∈ visit, e.1 < 2 ^ 63 - 1) :
    1 ≤ createNextID visit ∧ createNextID visit ≤ 2 ^ 63 - 1 ∧
      ∀ e ∈ visit, e.1 < createNextID visit := by
  obtain ⟨m, hid, h0, hle, hm⟩ := createNextID_spec visit
  have hm1 : m < 2 ^ 63 - 1 := by
    rcases hm with rfl | ⟨e, he, rfl⟩
    · norm_num
    · exact hsmall e he
  rw [hid, wrapInt64_of_range (m + 1) (by omega) (by omega)]
  refine ⟨by omega, by omega, fun e he => ?_⟩
  have := hle e he
  omega



/-- With registered ids in the `int` range, a picked id other than the
smallest `int` is positive and larger than every registered id. -/
theorem createNextID_fresh_of_ne (visit : List Entry)
    (hrange : ∀ e ∈ visit, e.1 ≤ 2 ^ 63 - 1) (hne : createNextID visit ≠ -(2 ^ 63)) :
    1 ≤ createNextID visit ∧ createNextID visit ≤ 2 ^ 63 - 1 ∧
      ∀ e ∈ visit, e.1 < createNextID visit := by
  obtain ⟨m, hid, h0, hle, hm⟩ := createNextID_spec visit
  have hm1 : m ≤ 2 ^ 63 - 1 := by
    rcases hm with rfl | ⟨e, he, rfl⟩
    · norm_num
    · exact hrange e he
  have hm2 : m ≠ 2 ^ 63 - 1 := by
    intro hmax
    apply hne
    rw [hid, hmax]
    decide
  have hm3 : m < 2 ^ 63 - 1 := lt_of_le_of_ne hm1 hm2
  rw [hid, wrapInt64_of_range (m + 1) (by omega) (by omega)]
  refine ⟨by omega, by omega, fun e he => ?_⟩
  have := hle e he
  omega

/-- In lobby mode a message whose first token is `/create` is handled by the
create handler. -/
theorem route_create (env : Env) (σ : State) (item : UpdateResultMessageT) (args : List String)
    (hf : Fields item.Text = "/create" :: args)
    (hdir : σ.clientsRooms.lookup item.Chat.Id = none) :
    route env σ item = createRoomHandler env item σ := by
  have hd := dispatch_lobby σ item "/create" args hf hdir
  have hl : (mainDispatcher.lookup "/create").getD .defaultMainHandler =
      MainMessageHandler.createRoomHandler := rfl
  rw [hl] at hd
  simp only [route, hd, Invocation.call, MainMessageHandler.call]

/-- C11 (failing input): on the empty registry the create handler picks id 1,
not 0: `allID` starts as ten zeros, so it is never empty and the picked id is
one more than the largest of 0 and the registered ids (1 also for a registry
whose only id is -5). -/
theorem C11_empty_registry_gets_id_one :
    createNextID [] = 1 ∧
    route (Env.quiet []) State.init (mkMessage 1 "Ann" "/create") =
      .ok (⟨[⟨1, "ChackChack", 10, [1], true⟩], AList.insert 1 0 ∅, AList.insert 1 0 ∅⟩,
        [Event.log "create room: 1ChackChack",
         Event.send 1 "Вы создали комнату: ChackChack\nID комнаты: 1\nЛимит комнаты: 10"]) ∧
    createNextID [⟨-5, 0⟩] = 1 :=
  ⟨by decide, rfl, by decide⟩

/-- C13: a `/create` whose capacity argument is absent or parses creates a
room whose member list is `[sender]`, whose name is the first argument or
`ChackChack`, whose limit is the value of the second argument or 10; the
directory maps the sender to the new room, the registry maps the room's id to
it, and the only reply reports name, id and limit.  In lobby mode the router
hands a message with first token `/create` to this handler. -/
theorem C13_create_well_formed (env : Env) (message : UpdateResultMessageT) (σ : State)
    (t : String) (args : List String) (hf : Fields message.Text = t :: args)
    (hwf : args.length < 2 ∨ ∃ v, Atoi (args.getD 1 "") = (v, none)) :
    ∃ σ1 evs newRoom, createRoomHandler env message σ = .ok (σ1, evs) ∧
      σ1.heap = σ.heap ++ [newRoom] ∧
      newRoom.Members = [message.Chat.Id] ∧
      newRoom.Name = args.headD "ChackChack" ∧
      (args.length < 2 → newRoom.Limit = 10) ∧
      (∀ v, 2 ≤ args.length → Atoi (args.getD 1 "") = (v, none) → newRoom.Limit = v) ∧
      σ1.heap[σ.heap.length]? = some newRoom ∧
      σ1.clientsRooms.lookup message.Chat.Id = some σ.heap.length ∧
      σ1.allRooms.lookup newRoom.ID = some σ.heap.length ∧
      sends evs = [(message.Chat.Id, "Вы создали комнату: " ++ newRoom.Name ++
        "\nID комнаты: " ++ Itoa newRoom.ID ++ "\nЛимит комнаты: " ++ Itoa newRoom.Limit)] ∧
      (t = "/create" → σ.clientsRooms.lookup message.Chat.Id = none →
        route env σ message = .ok (σ1, evs)) := by
  obtain ⟨evs, heq, hsends⟩ := createRoomHandler_eq env message σ
  have hlen : (Fields message.Text).length = args.length + 1 := by rw [hf]; rfl
  have hget2 : (Fields message.Text).getD 2 "" = args.getD 1 "" := by rw [hf]; rfl
  refine ⟨_, evs, createdRoom env message, heq, rfl, rfl, ?_, ?_, ?_, ?_, ?_, ?_, ?_, ?_⟩
  · simp only [createdRoom, hlen, hf]
    cases args with
    | nil => rfl
    | cons a rest => simp [defaultRoomName]
  · intro hshort
    have h3 : ¬ (Fields message.Text).length ≥ 3 := by omega
    simp only [createdRoom, h3, if_false, defaultRoomLimit]
  · intro v h2 hv
    have h3 : (Fields message.Text).length ≥ 3 := by omega
    simp only [createdRoom, h3, if_true, hget2, hv]
  · simp
  · exact AList.lookup_insert _
  · exact AList.lookup_insert _
  · rw [hsends]
    have hno : ¬ ((Fields message.Text).length ≥ 3 ∧
        (Atoi ((Fields message.Text).getD 2 "")).2 ≠ none) := by
      rintro ⟨h3, hne⟩
      rcases hwf with hshort | ⟨v, hv⟩
      · omega
      · rw [hget2, hv] at hne
        exact hne rfl
    rw [if_neg hno]
    rfl
  · intro ht hdir
    subst ht
    rw [route_create env σ message args hf hdir, heq]

/-- Witness for C13: `/create Alpha 2` from session 1 in the empty state. -/
theorem C13_create_well_formed_witness :
    ∃ σ1 evs newRoom,
      createRoomHandler (Env.quiet []) (mkMessage 1 "Ann" "/create Alpha 2") State.init =
        .ok (σ1, evs) ∧
      σ1.heap = [newRoom] ∧ newRoom.Members = [1] ∧ newRoom.Name = "Alpha" ∧
      newRoom.Limit = 2 ∧ σ1.clientsRooms.lookup 1 = some 0 :=
  let ⟨σ1, evs, newRoom, h, hheap, hm, hn, _, hl, _, hd, _, _, _⟩ :=
    C13_create_well_formed (Env.quiet []) (mkMessage 1 "Ann" "/create Alpha 2") State.init
      "/create" ["Alpha", "2"] (by decide) (Or.inr ⟨2, by decide⟩)
  ⟨σ1, evs, newRoom, h, hheap, hm, hn, hl 2 (by decide) (by decide), hd⟩

/-- C14 (failing input): `/create Alpha 5` supplies a name and a capacity and
no third argument, yet the room is created with `Private = false`: the flag is
inverted as soon as the capacity argument is present (`len(command) >= 3`).
With the name alone the flag keeps its default. -/
theorem C14_private_flips_on_capacity :
    route (Env.quiet []) State.init (mkMessage 1 "Ann" "/create Alpha 5") =
      .ok (⟨[⟨1, "Alpha", 5, [1], false⟩], AList.insert 1 0 ∅, AList.insert 1 0 ∅⟩,
        [Event.log "create room: 1Alpha",
         Event.send 1 "Вы создали комнату: Alpha\nID комнаты: 1\nЛимит комнаты: 5"]) ∧
    (createdRoom (Env.quiet []) (mkMessage 1 "Ann" "/create Alpha")).Private = true ∧
    (createdRoom (Env.quiet []) (mkMessage 1 "Ann" "/create Alpha 5")).Private = false ∧
    (createdRoom (Env.quiet []) (mkMessage 1 "Ann" "/create Alpha 5 no")).Private = false :=
  ⟨rfl, by decide, by decide, by decide⟩

/-- C15 (failing input): for `/create Alpha x` the error reply is sent and the
room is created with the sender as sole member, but its limit is the 0 that
the failed `Atoi` returned, not the default 10; for a capacity beyond the
`int` range it is the largest `int`. -/
theorem C15_unparsed_capacity_is_not_default :
    route (Env.quiet []) State.init (mkMessage 1 "Ann" "/create Alpha x") =
      .ok (⟨[⟨1, "Alpha", 0, [1], false⟩], AList.insert 1 0 ∅, AList.insert 1 0 ∅⟩,
        [Event.send 1 "Не правильно введен лимит для комнаты",
         Event.log "create room: 1Alpha",
         Event.send 1 "Вы создали комнату: Alpha\nID комнаты: 1\nЛимит комнаты: 0"]) ∧
    Atoi "x" = (0, some .errSyntax) ∧
    (createdRoom (Env.quiet []) (mkMessage 1 "Ann" "/create Alpha 99999999999999999999")).Limit =
      9223372036854775807 :=
  ⟨rfl, by decide, by decide⟩

/-- C18 (failing input): the room created by `/create Alpha 2` in the empty
state has id 1, so the `/join 0` of session 2 is answered with "room 0 not
found" and the room keeps the single member 1. -/
theorem C18_scenario_first_id_is_one :
    routeAll State.init [mkMessage 1 "Ann" "/create Alpha 2", mkMessage 2 "Bob" "/join 0"] =
      .ok (⟨[⟨1, "Alpha", 2, [1], false⟩], AList.insert 1 0 ∅, AList.insert 1 0 ∅⟩,
        [Event.log "create room: 1Alpha",
         Event.send 1 "Вы создали комнату: Alpha\nID комнаты: 1\nЛимит комнаты: 2",
         Event.send 2 "Комната с ID 0 не найдена"]) :=
  rfl

/-- The scenario of C18 with the id the code really assigns (1): join, refusal
of the third session, relay of `hi`, quit and the two sweeps. -/
theorem scenario_with_id_one :
    routeAll State.init [mkMessage 1 "Ann" "/create Alpha 2", mkMessage 2 "Bob" "/join 1",
        mkMessage 3 "Cy" "/join 1", mkMessage 2 "Bob" "hi", mkMessage 1 "Ann" "/quit"] =
      .ok (⟨[⟨1, "Alpha", 2, [2], false⟩], AList.insert 2 0 ∅, AList.insert 1 0 ∅⟩,
        [Event.log "create room: 1Alpha",
         Event.send 1 "Вы создали комнату: Alpha\nID комнаты: 1\nЛимит комнаты: 2",
         Event.log "Client 2 entered the room Alpha",
         Event.send 2 "Вы успешно зашли в комнату Alpha",
         Event.send 3 "Комната переполнена",
         Event.send 1 "Bob: hi",
         Event.log "delete chat 1 from room Alpha",
         Event.log "[2]",
         Event.send 1 "Вы вышли из комнаты: Alpha"]) ∧
    cleanRooms [⟨1, 0⟩] ⟨[⟨1, "Alpha", 2, [2], false⟩], AList.insert 2 0 ∅, AList.insert 1 0 ∅⟩ =
      .ok (⟨[⟨1, "Alpha", 2, [2], false⟩], AList.insert 2 0 ∅, AList.insert 1 0 ∅⟩, []) ∧
    routeAll ⟨[⟨1, "Alpha", 2, [2], false⟩], AList.insert 2 0 ∅, AList.insert 1 0 ∅⟩
        [mkMessage 2 "Bob" "/quit"] =
      .ok (⟨[⟨1, "Alpha", 2, [], false⟩], ∅, AList.insert 1 0 ∅⟩,
        [Event.log "delete chat 2 from room Alpha", Event.log "[]",
         Event.send 2 "Вы вышли из комнаты: Alpha"]) ∧
    cleanRooms [⟨1, 0⟩] ⟨[⟨1, "Alpha", 2, [], false⟩], ∅, AList.insert 1 0 ∅⟩ =
      .ok (⟨[⟨1, "Alpha", 2, [], false⟩], ∅, ∅⟩,
        [Event.log "Room Alphais empty. delete it."]) :=
  ⟨rfl, rfl, rfl, rfl⟩

/-- C20: in every reachable state no member list holds a session id twice. -/
theorem C20_members_nodup (σ : State) (h : Reachable σ) :
    ∀ (p : Nat) (r : Room), σ.heap[p]? = some r → r.Members.Nodup :=
  (inv_reachable σ h).members_nodup

/-- Witness for C20: the state after session 1 created a room and session 2
joined it. -/
theorem C20_members_nodup_witness :
    Reachable exampleState ∧
    ∀ (p : Nat) (r : Room), exampleState.heap[p]? = some r → r.Members.Nodup :=
  ⟨reachable_example, C20_members_nodup exampleState reachable_example⟩

/-! ### List -/

/-- The loop of `/list` on valid pointers: it counts the public rooms it
visits and appends one line for each, in visiting order. -/
theorem listLoop_spec (heap : List Room) (l : List Entry)
    (hvalid : ∀ e ∈ l, e.2 < heap.length) (roomCount : Int) (userMessage : String) :
    listLoop heap l roomCount userMessage =
      .ok (roomCount + (((roomsOf heap l).filter (fun r => !r.Private)).length : Int),
        userMessage ++
          (((roomsOf heap l).filter (fun r => !r.Private)).map listEntry).foldr
            (fun a b => a ++ b) "") := by
  induction l generalizing roomCount userMessage with
  | nil => simp [listLoop, roomsOf]
  | cons e rest ih =>
    obtain ⟨roomID, roomPointer⟩ := e
    have hp : roomPointer < heap.length := hvalid ⟨roomID, roomPointer⟩ (List.mem_cons_self _ _)
    have hrest : ∀ e ∈ rest, e.2 < heap.length := fun e he => hvalid e (List.mem_cons_of_mem _ he)
    have hget : heap[roomPointer]? = some heap[roomPointer] := List.getElem?_eq_getElem hp
    have hrooms : roomsOf heap (⟨roomID, roomPointer⟩ :: rest) =
        heap[roomPointer] :: roomsOf heap rest := by
      simp [roomsOf, List.filterMap_cons, hget]
    rw [hrooms]
    by_cases hpriv : heap[roomPointer].Private = true
    · simp only [listLoop, hget, hpriv, if_true, ih hrest, List.filter_cons, Bool.not_true,
        Bool.false_eq_true, if_false]
    · have hpub : heap[roomPointer].Private = false := by
        cases h : heap[roomPointer].Private
        · rfl
        · exact absurd h hpriv
      simp only [listLoop, hget, hpub, Bool.false_eq_true, if_false, ih hrest, List.filter_cons,
        Bool.not_false, if_true, List.map_cons, List.foldr_cons, List.length_cons]
      congr 2
      · push_cast
        ring
      · simp only [listEntry, String.append_assoc]

/-- C16: whatever order `range` visits the registry in, the `/list` reply is
one line (name, id, member count/limit) for each registered room with
`Private = false`, in visiting order, and none for a private room, followed
by the number of those rooms; without public rooms the count is `0`; the state
is returned unchanged. -/
theorem C16_list_public_rooms (env : Env) (message : UpdateResultMessageT) (σ : State)
    (hvisit : env.visit.Perm σ.allRooms.entries)
    (hvalid : ∀ e ∈ σ.allRooms.entries, e.2 < σ.heap.length) :
    ∃ evs, listHandler env message σ = .ok (σ, evs) ∧
      sends evs = [(message.Chat.Id,
        (((roomsOf σ.heap env.visit).filter (fun r => !r.Private)).map listEntry).foldr
            (fun a b => a ++ b) "" ++
          "\nОбщее количество публичных комнат: " ++
          Itoa (((roomsOf σ.heap env.visit).filter (fun r => !r.Private)).length : Int))] ∧
      ((roomsOf σ.heap env.visit).filter (fun r => !r.Private)).Perm
        ((roomsOf σ.heap σ.allRooms.entries).filter (fun r => !r.Private)) ∧
      ((roomsOf σ.heap σ.allRooms.entries).filter (fun r => !r.Private) = [] →
        sends evs = [(message.Chat.Id, "\nОбщее количество публичных комнат: 0")]) := by
  have hv : ∀ e ∈ env.visit, e.2 < σ.heap.length := fun e he => hvalid e (hvisit.mem_iff.mp he)
  have hloop := listLoop_spec σ.heap env.visit hv 0 ""
  have hperm : ((roomsOf σ.heap env.visit).filter (fun r => !r.Private)).Perm
      ((roomsOf σ.heap σ.allRooms.entries).filter (fun r => !r.Private)) :=
    (hvisit.filterMap _).filter _
  have hempty : ∀ x : String, "" ++ x = x := fun x => by
    apply String.ext
    simp [String.data_append]
  have hsends : ∃ evs, listHandler env message σ = .ok (σ, evs) ∧
      sends evs = [(message.Chat.Id,
        (((roomsOf σ.heap env.visit).filter (fun r => !r.Private)).map listEntry).foldr
            (fun a b => a ++ b) "" ++
          "\nОбщее количество публичных комнат: " ++
          Itoa (((roomsOf σ.heap env.visit).filter (fun r => !r.Private)).length : Int))] := by
    refine ⟨_, ?_, sends_sendMessage env 0 _ _⟩
    simp only [listHandler, hloop, hempty, zero_add]
  obtain ⟨evs, hlist, hs⟩ := hsends
  refine ⟨evs, hlist, hs, hperm, ?_⟩
  intro hnil
  have hnil2 : (roomsOf σ.heap env.visit).filter (fun r => !r.Private) = [] :=
    List.Perm.eq_nil (hnil ▸ hperm)
  rw [hs, hnil2]
  rfl

/-- Witness for C16: a public and a private room, visited in either order. -/
theorem C16_list_public_rooms_witness :
    ∃ evs, listHandler (Env.quiet [⟨1, 0⟩, ⟨2, 1⟩]) (mkMessage 9 "Zoe" "/list")
        ⟨[⟨1, "Alpha", 2, [2], false⟩, ⟨2, "Beta", 3, [4], true⟩], ∅,
          AList.insert 2 1 (AList.insert 1 0 ∅)⟩ =
        .ok (⟨[⟨1, "Alpha", 2, [2], false⟩, ⟨2, "Beta", 3, [4], true⟩], ∅,
          AList.insert 2 1 (AList.insert 1 0 ∅)⟩, evs) ∧
      sends evs = [(9, "\nAlpha, 1, 1/2\nОбщее количество публичных комнат: 1")] :=
  let ⟨evs, h, hs, _, _⟩ :=
    C16_list_public_rooms (Env.quiet [⟨1, 0⟩, ⟨2, 1⟩]) (mkMessage 9 "Zoe" "/list")
      ⟨[⟨1, "Alpha", 2, [2], false⟩, ⟨2, "Beta", 3, [4], true⟩], ∅,
        AList.insert 2 1 (AList.insert 1 0 ∅)⟩ (by decide) (by decide)
  ⟨evs, h, hs⟩



/-! ### Join does not read the private flag -/

theorem forgetPrivate_getElem? (heap : List Room) (p : Nat) :
    (heap.map Room.forgetPrivate)[p]? = (heap[p]?).map Room.forgetPrivate := by
  simp

/-- Joining after blanking every private flag gives the result of joining,
with every private flag blanked. -/
theorem joinRoomHandler_forgetPrivate (env : Env) (message : UpdateResultMessageT) (σ : State) :
    forgetPrivateResult (joinRoomHandler env message σ.forgetPrivate) =
      forgetPrivateResult (joinRoomHandler env message σ) := by
  have hidem : σ.forgetPrivate.forgetPrivate = σ.forgetPrivate := by
    simp [State.forgetPrivate, Room.forgetPrivate, Function.comp_def]
  unfold joinRoomHandler
  by_cases hlen : (Fields message.Text).length < 2
  · simp only [hlen, if_true, forgetPrivateResult, hidem]
  · simp only [hlen, if_false]
    cases harg : (Fields message.Text)[1]? with
    | none => rfl
    | some arg =>
      simp only []
      rcases hatoi : Atoi arg with ⟨chatID, err⟩
      cases err with
      | some e => simp only [forgetPrivateResult, hidem]
      | none =>
        simp only []
        have hreg : σ.forgetPrivate.allRooms = σ.allRooms := rfl
        rw [hreg]
        cases hsome : σ.allRooms.lookup chatID with
        | none => simp only [forgetPrivateResult, hidem]
        | some roomPointer =>
          simp only []
          have hheap : σ.forgetPrivate.heap[roomPointer]? =
              (σ.heap[roomPointer]?).map Room.forgetPrivate :=
            forgetPrivate_getElem? σ.heap roomPointer
          rw [hheap]
          cases hr : σ.heap[roomPointer]? with
          | none => rfl
          | some r =>
            simp only [Option.map_some']
            by_cases hfull : r.Limit ≤ (r.Members.length : Int)
            · have hfull2 : r.forgetPrivate.Limit ≤ (r.forgetPrivate.Members.length : Int) :=
                hfull
              simp only [hfull, hfull2, if_true, forgetPrivateResult, hidem]
            · have hfull2 : ¬ r.forgetPrivate.Limit ≤ (r.forgetPrivate.Members.length : Int) :=
                hfull
              simp only [hfull, hfull2, if_false, forgetPrivateResult]
              congr 2
              simp [State.forgetPrivate, Room.forgetPrivate, List.map_set, Function.comp_def]
              rfl

/-- C17: two states that differ only in the `Private` flags of their rooms
give, for every `/join` message, the same reply and log, the same panic if
any, and result states that again differ only in `Private` flags (same member
lists, directory and registry). -/
theorem C17_join_ignores_private (env : Env) (message : UpdateResultMessageT) (σ σ1 : State)
    (h : σ.forgetPrivate = σ1.forgetPrivate) :
    forgetPrivateResult (joinRoomHandler env message σ) =
      forgetPrivateResult (joinRoomHandler env message σ1) := by
  rw [← joinRoomHandler_forgetPrivate env message σ, ← joinRoomHandler_forgetPrivate env message σ1,
    h]

/-- Witness for C17: a public and a private copy of the same room, joined by session 2. -/
theorem C17_join_ignores_private_witness :
    forgetPrivateResult (joinRoomHandler (Env.quiet []) (mkMessage 2 "Bob" "/join 1")
        ⟨[⟨1, "Alpha", 2, [1], false⟩], AList.insert 1 0 ∅, AList.insert 1 0 ∅⟩) =
      forgetPrivateResult (joinRoomHandler (Env.quiet []) (mkMessage 2 "Bob" "/join 1")
        ⟨[⟨1, "Alpha", 2, [1], true⟩], AList.insert 1 0 ∅, AList.insert 1 0 ∅⟩) :=
  C17_join_ignores_private (Env.quiet []) (mkMessage 2 "Bob" "/join 1")
    ⟨[⟨1, "Alpha", 2, [1], false⟩], AList.insert 1 0 ∅, AList.insert 1 0 ∅⟩
    ⟨[⟨1, "Alpha", 2, [1], true⟩], AList.insert 1 0 ∅, AList.insert 1 0 ∅⟩ rfl

/-! ### Steps of the state machine -/

/-- What routing one message can do to the state. -/
theorem route_cases (env : Env) (σ σ1 : State) (item : UpdateResultMessageT) (evs : List Event)
    (h : route env σ item = .ok (σ1, evs)) :
    σ1 = σ ∨
    (∃ p r members, σ.clientsRooms.lookup item.Chat.Id = some p ∧ σ.heap[p]? = some r ∧
      quitMembers item.Chat.Id r.Members = .ok members ∧
      σ1 = { heap := σ.heap.set p { r with Members := members },
             clientsRooms := σ.clientsRooms.erase item.Chat.Id,
             allRooms := σ.allRooms }) ∨
    (σ.clientsRooms.lookup item.Chat.Id = none ∧
      σ1 = { heap := σ.heap ++ [createdRoom env item],
             clientsRooms := σ.clientsRooms.insert item.Chat.Id σ.heap.length,
             allRooms := σ.allRooms.insert (createNextID env.visit) σ.heap.length }) ∨
    (σ.clientsRooms.lookup item.Chat.Id = none ∧
      ∃ chatID p r, σ.allRooms.lookup chatID = some p ∧ σ.heap[p]? = some r ∧
        (r.Members.length : Int) < r.Limit ∧
        σ1 = { heap := σ.heap.set p { r with Members := r.Members ++ [item.Chat.Id] },
               clientsRooms := σ.clientsRooms.insert item.Chat.Id p,
               allRooms := σ.allRooms }) := by
  unfold route at h
  cases hd : dispatch σ item with
  | error e => simp [hd] at h
  | ok sel =>
    cases sel with
    | none =>
      simp only [hd] at h
      injection h with h
      injection h with h1 h2
      exact Or.inl h1.symm
    | some inv =>
      simp only [hd] at h
      rcases dispatch_some σ item inv hd with ⟨handler, room, rfl, hdir⟩ | ⟨handler, rfl, hdir⟩
      · simp only [Invocation.call] at h
        by_cases hq : handler = .quitRoomHandler
        · subst hq
          obtain ⟨r, members, hheap, hquit, rfl⟩ :=
            quitRoomHandler_result env item room σ σ1 evs h
          exact Or.inr (Or.inl ⟨room, r, members, hdir, hheap, hquit, rfl⟩)
        · exact Or.inl (room_readonly handler env item room σ σ1 evs hq h)
      · simp only [Invocation.call] at h
        by_cases hc : handler = .createRoomHandler
        · subst hc
          obtain ⟨evs2, heq, -⟩ := createRoomHandler_eq env item σ
          simp only [MainMessageHandler.call] at h
          rw [heq] at h
          injection h with h
          injection h with h1 h2
          exact Or.inr (Or.inr (Or.inl ⟨hdir, h1.symm⟩))
        · by_cases hj : handler = .joinRoomHandler
          · subst hj
            rcases joinRoomHandler_result env item σ σ1 evs h with
              rfl | ⟨chatID, p, r, hreg, hheap, hfree, rfl⟩
            · exact Or.inl rfl
            · exact Or.inr (Or.inr (Or.inr ⟨hdir, chatID, p, r, hreg, hheap, hfree, rfl⟩))
          · exact Or.inl (main_readonly handler env item σ σ1 evs hc hj h)

/-- Replacing a room by one with the same id leaves the ids of the heap as they were. -/
theorem ids_set (heap : List Room) (p : Nat) (r r1 : Room) (h : heap[p]? = some r)
    (hid : r1.ID = r.ID) : (heap.set p r1).map (fun x => x.ID) = heap.map (fun x => x.ID) := by
  apply List.ext_getElem?
  intro i
  by_cases hi : i = p
  · subst hi
    have hlt : i < heap.length := (List.getElem?_eq_some_iff.mp h).1
    simp [hlt, h, hid, List.getElem?_eq_getElem]
    have := List.getElem?_eq_some_iff.mp h
    rcases this with ⟨_, h2⟩
    rw [h2]
  · simp [List.getElem?_set, Ne.symm hi]

/-- A step never changes or drops the id of an allocated room. -/
theorem route_ids (env : Env) (σ σ1 : State) (item : UpdateResultMessageT) (evs : List Event)
    (h : route env σ item = .ok (σ1, evs)) :
    ∃ extra, σ1.heap.map (fun x => x.ID) = σ.heap.map (fun x => x.ID) ++ extra := by
  rcases route_cases env σ σ1 item evs h with rfl | ⟨p, r, members, -, hheap, -, rfl⟩ |
    ⟨-, rfl⟩ | ⟨-, chatID, p, r, -, hheap, -, rfl⟩
  · exact ⟨[], by simp⟩
  · exact ⟨[], by rw [List.append_nil]; exact ids_set σ.heap p r _ hheap rfl⟩
  · exact ⟨[(createdRoom env item).ID], by simp⟩
  · exact ⟨[], by rw [List.append_nil]; exact ids_set σ.heap p r _ hheap rfl⟩

theorem noOverflow_iff (σ : State) :
    NoOverflow σ ↔ (-(2 ^ 63) : Int) ∉ σ.heap.map (fun x => x.ID) := by
  unfold NoOverflow
  constructor
  · intro h hmem
    obtain ⟨r, hr, hid⟩ := List.mem_map.mp hmem
    exact h r hr hid
  · intro h r hr hid
    exact h (List.mem_map.mpr ⟨r, hr, hid⟩)

theorem noOverflow_of_route (env : Env) (σ σ1 : State) (item : UpdateResultMessageT)
    (evs : List Event) (h : route env σ item = .ok (σ1, evs)) (hn : NoOverflow σ1) :
    NoOverflow σ := by
  obtain ⟨extra, hids⟩ := route_ids env σ σ1 item evs h
  rw [noOverflow_iff] at hn ⊢
  intro hmem
  exact hn (by rw [hids]; exact List.mem_append_left _ hmem)



/-! ### Rooms are registered under their own id -/

theorem heap_set_same_id (heap : List Room) (p : Nat) (r r1 : Room) (h : heap[p]? = some r)
    (hid : r1.ID = r.ID) (q : Nat) (r0 : Room) (h0 : heap[q]? = some r0) :
    ∃ r2, (heap.set p r1)[q]? = some r2 ∧ r2.ID = r0.ID := by
  by_cases hq : q = p
  · subst hq
    rw [h] at h0
    cases h0
    exact ⟨r1, (heap_set_lookup heap q r r1 h q r1).mpr (Or.inl ⟨rfl, rfl⟩), hid⟩
  · exact ⟨r0, (heap_set_lookup heap p r r1 h q r0).mpr (Or.inr ⟨hq, h0⟩), rfl⟩

theorem ownIds_route (env : Env) (σ σ1 : State) (item : UpdateResultMessageT)
    (evs : List Event) (hown : OwnIds σ) (h : route env σ item = .ok (σ1, evs)) :
    OwnIds σ1 := by
  rcases route_cases env σ σ1 item evs h with rfl | ⟨p, r, members, -, hheap, -, rfl⟩ |
    ⟨-, rfl⟩ | ⟨-, chatID, p, r, -, hheap, -, rfl⟩
  · exact hown
  · intro id q hl
    obtain ⟨r0, h0, hid⟩ := hown id q hl
    obtain ⟨r2, h2, hid2⟩ := heap_set_same_id σ.heap p r { r with Members := members } hheap rfl q r0 h0
    exact ⟨r2, h2, hid2.trans hid⟩
  · intro id q hl
    have hl1 : AList.lookup id (σ.allRooms.insert (createNextID env.visit) σ.heap.length) =
        some q := hl
    by_cases hid : id = createNextID env.visit
    · subst hid
      rw [AList.lookup_insert] at hl1
      injection hl1 with hl1
      subst hl1
      exact ⟨createdRoom env item,
        (heap_append_lookup σ.heap _ _ _).mpr (Or.inl ⟨rfl, rfl⟩), rfl⟩
    · rw [AList.lookup_insert_ne hid] at hl1
      obtain ⟨r0, h0, hid0⟩ := hown id q hl1
      exact ⟨r0, (heap_append_lookup σ.heap _ q r0).mpr (Or.inr h0), hid0⟩
  · intro id q hl
    obtain ⟨r0, h0, hid⟩ := hown id q hl
    obtain ⟨r2, h2, hid2⟩ := heap_set_same_id σ.heap p r { r with Members := r.Members ++ [item.Chat.Id] } hheap rfl q r0 h0
    exact ⟨r2, h2, hid2.trans hid⟩

/-- In every reachable state each registered room carries its registry key as `ID`. -/
theorem ownIds_reachable (σ : State) (h : Reachable σ) : OwnIds σ := by
  induction h with
  | init =>
    intro id p hl
    simp [State.init] at hl
  | sweep σ σ1 visit evs hreach hvisit hclean ih =>
    obtain ⟨σ2, evs2, h2, hheap, -, -, hiff⟩ :=
      cleanRooms_spec σ visit hvisit (inv_reachable σ hreach).registry_valid
    rw [hclean] at h2
    injection h2 with h2
    injection h2 with h3 h4
    subst h3
    intro id p hl
    rw [hheap]
    exact ih id p ((hiff id p).mp hl).1
  | route σ σ1 env item evs _ _ hroute ih => exact ownIds_route env σ σ1 item evs ih hroute

/-- While `max + 1` has not overflowed, every id given so far is a positive
`int` and every room the directory points at is registered under its own
id. -/
theorem registered_reachable (σ : State) (h : Reachable σ) (hn : NoOverflow σ) :
    IdsInRange σ ∧ Registered σ := by
  induction h with
  | init =>
    refine ⟨?_, ?_⟩
    · intro r hr
      simp [State.init] at hr
    · intro s p hl
      simp [State.init] at hl
  | sweep σ σ1 visit evs hreach hvisit hclean ih =>
    have hinv := inv_reachable σ hreach
    obtain ⟨σ2, evs2, h2, hheap, hdir, -, hiff⟩ :=
      cleanRooms_spec σ visit hvisit hinv.registry_valid
    rw [hclean] at h2
    injection h2 with h2
    injection h2 with h3 h4
    subst h3
    have hn0 : NoOverflow σ := by
      intro r hr
      exact hn r (by rw [hheap]; exact hr)
    obtain ⟨hrange, hreg⟩ := ih hn0
    refine ⟨?_, ?_⟩
    · intro r hr
      rw [hheap] at hr
      exact hrange r hr
    · intro s p hl
      rw [hdir] at hl
      obtain ⟨r, hr, hlook⟩ := hreg s p hl
      refine ⟨r, by rw [hheap]; exact hr, (hiff r.ID p).mpr ⟨hlook, r, hr, ?_⟩⟩
      have hmem : s ∈ r.Members := by
        obtain ⟨r2, hr2, hm⟩ := (hinv.directory_iff s p).mp hl
        rw [hr] at hr2
        cases hr2
        exact hm
      exact List.ne_nil_of_mem hmem
  | route σ σ1 env item evs hreach hvisit hroute ih =>
    have hn0 : NoOverflow σ := noOverflow_of_route env σ σ1 item evs hroute hn
    obtain ⟨hrange, hreg⟩ := ih hn0
    have hown := ownIds_reachable σ hreach
    rcases route_cases env σ σ1 item evs hroute with rfl | ⟨p, r, members, hdir, hheap, -, rfl⟩ |
      ⟨hdir, rfl⟩ | ⟨hdir, chatID, p, r, hlook, hheap, -, rfl⟩
    · exact ⟨hrange, hreg⟩
    · refine ⟨?_, ?_⟩
      · intro x hx
        obtain ⟨i, hi, hxi⟩ := List.getElem_of_mem hx
        have hx2 : (σ.heap.set p { r with Members := members })[i]? = some x := by
          rw [List.getElem?_eq_getElem hi, hxi]
        rcases (heap_set_lookup σ.heap p r _ hheap i x).mp hx2 with ⟨-, rfl⟩ | ⟨-, hx3⟩
        · exact hrange r (List.getElem?_mem hheap)
        · exact hrange x (List.getElem?_mem hx3)
      · intro s q hl
        have hl1 : AList.lookup s (σ.clientsRooms.erase item.Chat.Id) = some q := hl
        have hs : s ≠ item.Chat.Id := by
          rintro rfl
          rw [AList.lookup_erase] at hl1
          cases hl1
        rw [AList.lookup_erase_ne hs] at hl1
        obtain ⟨r0, h0, hlook⟩ := hreg s q hl1
        obtain ⟨r2, h2, hid2⟩ := heap_set_same_id σ.heap p r { r with Members := members } hheap rfl q r0 h0
        exact ⟨r2, h2, by rw [hid2]; exact hlook⟩
    · have hkeys : ∀ e ∈ env.visit, e.1 ≤ 2 ^ 63 - 1 := by
        rintro ⟨id, q⟩ he
        have hl : σ.allRooms.lookup id = some q :=
          AList.mem_lookup_iff.mpr (hvisit.mem_iff.mp he)
        obtain ⟨r0, h0, hid0⟩ := hown id q hl
        have h1 := (hrange r0 (List.getElem?_mem h0)).2
        show id ≤ 2 ^ 63 - 1
        rw [← hid0]
        exact h1
      have hpicked : createNextID env.visit ≠ -(2 ^ 63) :=
        hn (createdRoom env item) (List.mem_append_right _ (List.mem_singleton_self _))
      obtain ⟨hpos, hle, hfresh⟩ := createNextID_fresh_of_ne env.visit hkeys hpicked
      refine ⟨?_, ?_⟩
      · intro x hx
        rcases List.mem_append.mp hx with hx | hx
        · exact hrange x hx
        · rw [List.mem_singleton.mp hx]
          exact ⟨hpos, hle⟩
      · intro s q hl
        have hl1 : AList.lookup s (σ.clientsRooms.insert item.Chat.Id σ.heap.length) = some q :=
          hl
        by_cases hs : s = item.Chat.Id
        · subst hs
          rw [AList.lookup_insert] at hl1
          injection hl1 with hl1
          subst hl1
          exact ⟨createdRoom env item,
            (heap_append_lookup σ.heap _ _ _).mpr (Or.inl ⟨rfl, rfl⟩), AList.lookup_insert _⟩
        · rw [AList.lookup_insert_ne hs] at hl1
          obtain ⟨r0, h0, hlook⟩ := hreg s q hl1
          refine ⟨r0, (heap_append_lookup σ.heap _ q r0).mpr (Or.inr h0), ?_⟩
          have hlt : r0.ID < createNextID env.visit :=
            hfresh ⟨r0.ID, q⟩ (hvisit.mem_iff.mpr (AList.mem_lookup_iff.mp hlook))
          show AList.lookup r0.ID (σ.allRooms.insert (createNextID env.visit) σ.heap.length) =
            some q
          rw [AList.lookup_insert_ne (ne_of_lt hlt)]
          exact hlook
    · obtain ⟨rp, hrp, hidp⟩ := hown chatID p hlook
      rw [hheap] at hrp
      cases hrp
      refine ⟨?_, ?_⟩
      · intro x hx
        obtain ⟨i, hi, hxi⟩ := List.getElem_of_mem hx
        have hx2 : (σ.heap.set p { r with Members := r.Members ++ [item.Chat.Id] })[i]? =
            some x := by
          rw [List.getElem?_eq_getElem hi, hxi]
        rcases (heap_set_lookup σ.heap p r _ hheap i x).mp hx2 with ⟨-, rfl⟩ | ⟨-, hx3⟩
        · exact hrange r (List.getElem?_mem hheap)
        · exact hrange x (List.getElem?_mem hx3)
      · intro s q hl
        have hl1 : AList.lookup s (σ.clientsRooms.insert item.Chat.Id p) = some q := hl
        by_cases hs : s = item.Chat.Id
        · subst hs
          rw [AList.lookup_insert] at hl1
          injection hl1 with hl1
          subst hl1
          exact ⟨_, (heap_set_lookup σ.heap p r _ hheap p _).mpr (Or.inl ⟨rfl, rfl⟩),
            by rw [← hidp] at hlook; exact hlook⟩
        · rw [AList.lookup_insert_ne hs] at hl1
          obtain ⟨r0, h0, hlook0⟩ := hreg s q hl1
          obtain ⟨r2, h2, hid2⟩ := heap_set_same_id σ.heap p r { r with Members := r.Members ++ [item.Chat.Id] } hheap rfl q r0 h0
          exact ⟨r2, h2, by rw [hid2]; exact hlook0⟩

/-! ### A run that reaches the largest id -/

/-- In room mode a message whose first token is `/quit` is handled by the quit
handler on the sender's room. -/
theorem route_quit (env : Env) (σ : State) (item : UpdateResultMessageT) (args : List String)
    (room : Nat) (hf : Fields item.Text = "/quit" :: args)
    (hdir : σ.clientsRooms.lookup item.Chat.Id = some room) :
    route env σ item = quitRoomHandler env item room σ := by
  have hd := dispatch_room σ item "/quit" args room hf hdir
  have hl : (roomDispatcher.lookup "/quit").getD .messageRoomHandler =
      RoomMessageHandler.quitRoomHandler := rfl
  rw [hl] at hd
  simp only [route, hd, Invocation.call, RoomMessageHandler.call]

theorem quitRoomHandler_eq (env : Env) (message : UpdateResultMessageT) (room : Nat)
    (σ : State) (r : Room) (members : List Int) (hheap : σ.heap[room]? = some r)
    (hq : quitMembers message.Chat.Id r.Members = .ok members) :
    ∃ evs, quitRoomHandler env message room σ =
      .ok ({ heap := σ.heap.set room { r with Members := members },
             clientsRooms := σ.clientsRooms.erase message.Chat.Id,
             allRooms := σ.allRooms }, evs) := by
  simp only [quitRoomHandler, hheap, hq]
  exact ⟨_, rfl⟩

/-- With a single registered id `k ≥ 0` the create handler picks `k + 1`, wrapped. -/
theorem createNextID_single (visit : List Entry) (k : Int) (p : Nat) (hk : 0 ≤ k)
    (hmem : (⟨k, p⟩ : Entry) ∈ visit) (hall : ∀ e ∈ visit, e.1 = k) :
    createNextID visit = wrapInt64 (k + 1) := by
  obtain ⟨m, hid, h0, hle, hm⟩ := createNextID_spec visit
  have h1 : k ≤ m := hle ⟨k, p⟩ hmem
  have h2 : m = k := by
    rcases hm with rfl | ⟨e, he, rfl⟩
    · omega
    · exact hall e he
  rw [hid, h2]

theorem lookup_single (k : Int) (p : Nat) (id : Int) (q : Nat) :
    AList.lookup id (AList.insert k p (∅ : RoomMap)) = some q ↔ id = k ∧ q = p := by
  by_cases h : id = k
  · subst h
    rw [AList.lookup_insert]
    constructor
    · intro h
      injection h with h
      exact ⟨rfl, h.symm⟩
    · rintro ⟨-, rfl⟩
      rfl
  · rw [AList.lookup_insert_ne h]
    constructor
    · intro h2
      simp at h2
    · rintro ⟨h2, -⟩
      exact absurd h2 h



/-- One round: session 1 quits its room, creates the next one, and the sweep
removes the room it left.  The single registered id goes from `k` to `k + 1`. -/
theorem singleRoom_step (σ : State) (k : Int) (p : Nat) (hreach : Reachable σ)
    (hs : SingleRoom k p σ) (hk : 1 ≤ k) (hK : k + 1 ≤ 2 ^ 63 - 1) :
    ∃ σ1 p1, Reachable σ1 ∧ SingleRoom (k + 1) p1 σ1 := by
  obtain ⟨hreg, ⟨r, hheap, hmem⟩, hdir⟩ := hs
  have hp : p < σ.heap.length := (List.getElem?_eq_some_iff.mp hheap).1
  -- session 1 quits
  have hdir1 : σ.clientsRooms.lookup (mkMessage 1 "Ann" "/quit").Chat.Id = some p :=
    (hdir 1 p).mpr ⟨rfl, rfl⟩
  have hq : quitMembers (mkMessage 1 "Ann" "/quit").Chat.Id r.Members = .ok [] := by
    rw [hmem]
    rfl
  obtain ⟨evsA, hquit⟩ :=
    quitRoomHandler_eq (Env.quiet σ.allRooms.entries) (mkMessage 1 "Ann" "/quit") p σ r [] hheap hq
  have hrouteA := route_quit (Env.quiet σ.allRooms.entries) σ (mkMessage 1 "Ann" "/quit") [] p
    (by decide) hdir1
  rw [hquit] at hrouteA
  have hreachA := Reachable.route σ _ (Env.quiet σ.allRooms.entries) (mkMessage 1 "Ann" "/quit")
    evsA hreach (List.Perm.refl _) hrouteA
  -- session 1 creates the next room
  have hdirA : AList.lookup (mkMessage 1 "Ann" "/create").Chat.Id
      (σ.clientsRooms.erase (mkMessage 1 "Ann" "/quit").Chat.Id) = none :=
    AList.lookup_erase _ _
  obtain ⟨evsB, hcreate, -⟩ := createRoomHandler_eq (Env.quiet σ.allRooms.entries)
    (mkMessage 1 "Ann" "/create")
    { heap := σ.heap.set p { r with Members := [] },
      clientsRooms := σ.clientsRooms.erase (mkMessage 1 "Ann" "/quit").Chat.Id,
      allRooms := σ.allRooms }
  have hrouteB := route_create (Env.quiet σ.allRooms.entries)
    { heap := σ.heap.set p { r with Members := [] },
      clientsRooms := σ.clientsRooms.erase (mkMessage 1 "Ann" "/quit").Chat.Id,
      allRooms := σ.allRooms } (mkMessage 1 "Ann" "/create") [] (by decide) hdirA
  rw [hcreate] at hrouteB
  have hreachB := Reachable.route _ _ (Env.quiet σ.allRooms.entries)
    (mkMessage 1 "Ann" "/create") evsB hreachA (List.Perm.refl _) hrouteB
  have hnext : createNextID (Env.quiet σ.allRooms.entries).visit = k + 1 := by
    have hin : (⟨k, p⟩ : Entry) ∈ σ.allRooms.entries :=
      AList.mem_lookup_iff.mp ((hreg k p).mpr ⟨rfl, rfl⟩)
    have hall : ∀ e ∈ σ.allRooms.entries, e.1 = k := by
      rintro ⟨id, q⟩ he
      exact ((hreg id q).mp (AList.mem_lookup_iff.mpr he)).1
    rw [show (Env.quiet σ.allRooms.entries).visit = σ.allRooms.entries from rfl,
      createNextID_single σ.allRooms.entries k p (by omega) hin hall,
      wrapInt64_of_range (k + 1) (by omega) (by omega)]
  rw [hnext] at hreachB
  have hlenA : (σ.heap.set p { r with Members := [] }).length = σ.heap.length := by simp
  rw [hlenA] at hreachB
  -- the sweep
  have hinvB := inv_reachable _ hreachB
  obtain ⟨σC, evsC, hclean, hheapC, hdirC, -, hiff⟩ :=
    cleanRooms_spec _ _ (List.Perm.refl _) hinvB.registry_valid
  have hreachC := Reachable.sweep _ σC _ evsC hreachB (List.Perm.refl _) hclean
  simp only at hheapC hdirC hiff
  have hnew : (σ.heap.set p { r with Members := [] } ++
      [createdRoom (Env.quiet σ.allRooms.entries) (mkMessage 1 "Ann" "/create")])[σ.heap.length]? =
      some (createdRoom (Env.quiet σ.allRooms.entries) (mkMessage 1 "Ann" "/create")) :=
    (heap_append_lookup _ _ _ _).mpr (Or.inl ⟨hlenA.symm, rfl⟩)
  have hold : (σ.heap.set p { r with Members := [] } ++
      [createdRoom (Env.quiet σ.allRooms.entries) (mkMessage 1 "Ann" "/create")])[p]? =
      some { r with Members := [] } :=
    (heap_append_lookup _ _ _ _).mpr
      (Or.inr ((heap_set_lookup σ.heap p r _ hheap p _).mpr (Or.inl ⟨rfl, rfl⟩)))
  refine ⟨σC, σ.heap.length, hreachC, ?_, ?_, ?_⟩
  · intro id q
    rw [hiff id q]
    constructor
    · rintro ⟨hl, x, hx, hne⟩
      by_cases hid : id = k + 1
      · subst hid
        rw [AList.lookup_insert] at hl
        injection hl with hl
        exact ⟨rfl, hl.symm⟩
      · exfalso
        rw [AList.lookup_insert_ne hid] at hl
        obtain ⟨-, rfl⟩ := (hreg id q).mp hl
        rw [hold] at hx
        cases hx
        exact hne rfl
    · rintro ⟨rfl, rfl⟩
      refine ⟨AList.lookup_insert _, _, hnew, ?_⟩
      simp [createdRoom]
  · rw [hheapC]
    exact ⟨_, hnew, rfl⟩
  · intro s q
    rw [hdirC]
    by_cases hs1 : s = 1
    · subst hs1
      show AList.lookup (1 : Int) (AList.insert (1 : Int) σ.heap.length
          (σ.clientsRooms.erase (1 : Int))) = some q ↔ (1 : Int) = 1 ∧ q = σ.heap.length
      rw [AList.lookup_insert]
      constructor
      · intro h
        injection h with h
        exact ⟨rfl, h.symm⟩
      · rintro ⟨-, rfl⟩
        rfl
    · show AList.lookup s (AList.insert (1 : Int) σ.heap.length
          (σ.clientsRooms.erase (1 : Int))) = some q ↔ s = 1 ∧ q = σ.heap.length
      rw [AList.lookup_insert_ne hs1, AList.lookup_erase_ne hs1]
      constructor
      · intro h
        exact absurd ((hdir s q).mp h).1 hs1
      · rintro ⟨h, -⟩
        exact absurd h hs1



/-- For every `n` from 1 up to the largest `int` some run leaves `n` as the
only registered id. -/
theorem reachable_singleRoom (n : Nat) (h1 : 1 ≤ n) (hK : (n : Int) ≤ 2 ^ 63 - 1) :
    ∃ σ p, Reachable σ ∧ SingleRoom (n : Int) p σ := by
  induction n, h1 using Nat.le_induction with
  | base =>
    refine ⟨⟨[⟨1, "ChackChack", 10, [1], true⟩], AList.insert 1 0 ∅, AList.insert 1 0 ∅⟩, 0,
      ?_, ?_, ?_, ?_⟩
    · exact Reachable.route State.init _ (Env.quiet []) (mkMessage 1 "Ann" "/create") _
        Reachable.init (List.Perm.refl _) rfl
    · intro id q
      exact lookup_single 1 0 id q
    · exact ⟨_, rfl, rfl⟩
    · intro s q
      exact lookup_single 1 0 s q
  | succ n hn ih =>
    obtain ⟨σ, p, hreach, hs⟩ := ih (by push_cast at hK ⊢; omega)
    obtain ⟨σ1, p1, hreach1, hs1⟩ :=
      singleRoom_step σ (n : Int) p hreach hs (by exact_mod_cast hn) (by push_cast at hK; omega)
    exact ⟨σ1, p1, hreach1, by push_cast; exact hs1⟩

/-- A reachable state in which the id the create handler picks, `-2^63`, is
already registered (for the room session 2 sits in). -/
theorem overflow_run :
    ∃ σ q, Reachable σ ∧ σ.allRooms.lookup (-(2 ^ 63)) = some q ∧
      createNextID σ.allRooms.entries = -(2 ^ 63) ∧ q < σ.heap.length ∧
      σ.clientsRooms.lookup 2 = some q ∧ σ.clientsRooms.lookup 3 = none ∧
      (∀ id, id ≠ -(2 ^ 63) → σ.allRooms.lookup id ≠ some q) := by
  obtain ⟨σ, p, hreach, hreg, ⟨r, hheap, hmem⟩, hdir⟩ :=
    reachable_singleRoom (2 ^ 63 - 1) (by norm_num) (by norm_num)
  have hp : p < σ.heap.length := (List.getElem?_eq_some_iff.mp hheap).1
  have hcast : (((2 ^ 63 - 1 : Nat)) : Int) = 2 ^ 63 - 1 := by norm_num
  rw [hcast] at hreg
  have hin : (⟨2 ^ 63 - 1, p⟩ : Entry) ∈ σ.allRooms.entries :=
    AList.mem_lookup_iff.mp ((hreg _ p).mpr ⟨rfl, rfl⟩)
  have hall : ∀ e ∈ σ.allRooms.entries, e.1 = 2 ^ 63 - 1 := by
    rintro ⟨id, q⟩ he
    exact ((hreg id q).mp (AList.mem_lookup_iff.mpr he)).1
  have hwrap : wrapInt64 (2 ^ 63 - 1 + 1) = -(2 ^ 63) := by decide
  have hnext : createNextID (Env.quiet σ.allRooms.entries).visit = -(2 ^ 63) := by
    rw [show (Env.quiet σ.allRooms.entries).visit = σ.allRooms.entries from rfl,
      createNextID_single σ.allRooms.entries (2 ^ 63 - 1) p (by norm_num) hin hall, hwrap]
  have hdir2 : σ.clientsRooms.lookup (mkMessage 2 "Bob" "/create").Chat.Id = none := by
    cases hl : σ.clientsRooms.lookup (mkMessage 2 "Bob" "/create").Chat.Id with
    | none => rfl
    | some q =>
      have := ((hdir _ q).mp hl).1
      exact absurd this (by decide)
  obtain ⟨evs, hcreate, -⟩ := createRoomHandler_eq (Env.quiet σ.allRooms.entries)
    (mkMessage 2 "Bob" "/create") σ
  have hroute := route_create (Env.quiet σ.allRooms.entries) σ (mkMessage 2 "Bob" "/create") []
    (by decide) hdir2
  rw [hcreate, hnext] at hroute
  have hreach1 := Reachable.route σ _ (Env.quiet σ.allRooms.entries)
    (mkMessage 2 "Bob" "/create") evs hreach (List.Perm.refl _) hroute
  refine ⟨_, σ.heap.length, hreach1, AList.lookup_insert _, ?_, ?_, ?_, ?_, ?_⟩
  · -- the next create picks -2^63 again
    obtain ⟨m, hid, h0, hle, hm⟩ :=
      createNextID_spec (σ.allRooms.insert (-(2 ^ 63)) σ.heap.length).entries
    have hkeys : ∀ e ∈ (σ.allRooms.insert (-(2 ^ 63)) σ.heap.length).entries,
        e.1 = -(2 ^ 63) ∨ e.1 = 2 ^ 63 - 1 := by
      rintro ⟨id, q⟩ he
      have hl : AList.lookup id (σ.allRooms.insert (-(2 ^ 63)) σ.heap.length) = some q :=
        AList.mem_lookup_iff.mpr he
      by_cases hid2 : id = -(2 ^ 63)
      · exact Or.inl hid2
      · rw [AList.lookup_insert_ne hid2] at hl
        exact Or.inr ((hreg id q).mp hl).1
    have hbig : (⟨2 ^ 63 - 1, p⟩ : Entry) ∈
        (σ.allRooms.insert (-(2 ^ 63)) σ.heap.length).entries := by
      apply AList.mem_lookup_iff.mp
      rw [AList.lookup_insert_ne (by norm_num)]
      exact (hreg _ p).mpr ⟨rfl, rfl⟩
    have hge : (2 ^ 63 - 1 : Int) ≤ m := hle _ hbig
    have hmeq : m = 2 ^ 63 - 1 := by
      rcases hm with rfl | ⟨e, he, rfl⟩
      · norm_num at hge
      · rcases hkeys e he with h | h
        · rw [h] at hge
          norm_num at hge
        · exact h
    show createNextID (σ.allRooms.insert (-(2 ^ 63)) σ.heap.length).entries = -(2 ^ 63)
    rw [hid, hmeq, hwrap]
  · show σ.heap.length < (σ.heap ++ [_]).length
    simp
  · exact AList.lookup_insert _
  · show AList.lookup (3 : Int) (σ.clientsRooms.insert (2 : Int) σ.heap.length) = none
    rw [AList.lookup_insert_ne (by decide)]
    cases hl : σ.clientsRooms.lookup 3 with
    | none => rfl
    | some q =>
      have := ((hdir _ q).mp hl).1
      exact absurd this (by decide)
  · intro id hid hl
    have hl1 : AList.lookup id (σ.allRooms.insert (-(2 ^ 63)) σ.heap.length) =
        some σ.heap.length := hl
    rw [AList.lookup_insert_ne hid] at hl1
    have := ((hreg id _).mp hl1).2
    omega

/-- Past the largest id the create handler picks `-2^63`, which is then a key of
the registry, and replaces that key's entry. -/
theorem overflow_replaces_entry :
    ∃ (σ σ1 : State) (env : Env) (evs : List Event) (q : Nat),
      Reachable σ ∧ env.visit.Perm σ.allRooms.entries ∧
      createRoomHandler env (mkMessage 3 "Cy" "/create") σ = .ok (σ1, evs) ∧
      σ.allRooms.lookup (createNextID env.visit) = some q ∧
      σ1.allRooms.lookup (createNextID env.visit) ≠ some q := by
  obtain ⟨σ, q, hreach, hlook, hnext, hq, -, -, -⟩ := overflow_run
  obtain ⟨evs, hcreate, -⟩ :=
    createRoomHandler_eq (Env.quiet σ.allRooms.entries) (mkMessage 3 "Cy" "/create") σ
  refine ⟨σ, _, Env.quiet σ.allRooms.entries, evs, q, hreach, List.Perm.refl _, hcreate, ?_, ?_⟩
  · show σ.allRooms.lookup (createNextID σ.allRooms.entries) = some q
    rw [hnext]
    exact hlook
  · show AList.lookup (createNextID σ.allRooms.entries)
      (σ.allRooms.insert (createNextID σ.allRooms.entries) σ.heap.length) ≠ some q
    rw [AList.lookup_insert]
    intro h
    injection h with h
    omega

/-- Past the largest id a create (not a sweep) leaves session 2 assigned to a
room that no registry entry leads to. -/
theorem overflow_unregisters_room :
    ∃ (σ : State) (p : Nat), Reachable σ ∧ σ.clientsRooms.lookup 2 = some p ∧
      ∀ id, σ.allRooms.lookup id ≠ some p := by
  obtain ⟨σ, q, hreach, hlook, hnext, hq, hdir2, hdir3, hother⟩ := overflow_run
  obtain ⟨evs, hcreate, -⟩ :=
    createRoomHandler_eq (Env.quiet σ.allRooms.entries) (mkMessage 3 "Cy" "/create") σ
  have hroute := route_create (Env.quiet σ.allRooms.entries) σ (mkMessage 3 "Cy" "/create") []
    (by decide) hdir3
  rw [hcreate] at hroute
  have hreach1 := Reachable.route σ _ (Env.quiet σ.allRooms.entries)
    (mkMessage 3 "Cy" "/create") evs hreach (List.Perm.refl _) hroute
  refine ⟨_, q, hreach1, ?_, ?_⟩
  · show AList.lookup (2 : Int) (σ.clientsRooms.insert (3 : Int) σ.heap.length) = some q
    rw [AList.lookup_insert_ne (by decide)]
    exact hdir2
  · intro id hl
    have hl1 : AList.lookup id
        (σ.allRooms.insert (createNextID σ.allRooms.entries) σ.heap.length) = some q := hl
    rw [hnext] at hl1
    by_cases hid : id = -(2 ^ 63)
    · subst hid
      rw [AList.lookup_insert] at hl1
      injection hl1 with hl1
      omega
    · rw [AList.lookup_insert_ne hid] at hl1
      exact hother id hid hl1

/-- C12: in every reachable state each registered room carries its registry
key as `ID`; and the create handler picks an id that is not a key of the
registry, so that the new registry is the old one plus the entry of the new
room and every existing room is unchanged.  The computation `max + 1` is
taken where it does not overflow `int`: every registered id is below
`2^63 - 1`. -/
theorem C12_create_picks_fresh_id (σ : State) (h : Reachable σ) :
    (∀ (id : Int) (p : Nat), σ.allRooms.lookup id = some p →
      ∃ r : Room, σ.heap[p]? = some r ∧ r.ID = id) ∧
    ((∀ e ∈ σ.allRooms.entries, e.1 < 2 ^ 63 - 1) →
      ∀ (env : Env) (message : UpdateResultMessageT), env.visit.Perm σ.allRooms.entries →
      ∃ σ1 evs, createRoomHandler env message σ = .ok (σ1, evs) ∧
        σ.allRooms.lookup (createNextID env.visit) = none ∧
        σ1.allRooms = σ.allRooms.insert (createNextID env.visit) σ.heap.length ∧
        σ1.allRooms.lookup (createNextID env.visit) = some σ.heap.length ∧
        σ1.heap[σ.heap.length]? = some (createdRoom env message) ∧
        (createdRoom env message).ID = createNextID env.visit ∧
        (∀ id, id ≠ createNextID env.visit → σ1.allRooms.lookup id = σ.allRooms.lookup id) ∧
        (∀ (p : Nat) (r : Room), σ.heap[p]? = some r → σ1.heap[p]? = some r)) := by
  refine ⟨ownIds_reachable σ h, fun hbound env message hvisit => ?_⟩
  obtain ⟨evs, hcreate, -⟩ := createRoomHandler_eq env message σ
  have hsmall : ∀ e ∈ env.visit, e.1 < 2 ^ 63 - 1 := fun e he =>
    hbound e (hvisit.mem_iff.mp he)
  obtain ⟨-, -, hfresh⟩ := createNextID_fresh env.visit hsmall
  refine ⟨_, evs, hcreate, ?_, rfl, AList.lookup_insert _, ?_, rfl, ?_, ?_⟩
  · cases hl : σ.allRooms.lookup (createNextID env.visit) with
    | none => rfl
    | some q =>
      have := hfresh ⟨createNextID env.visit, q⟩
        (hvisit.mem_iff.mpr (AList.mem_lookup_iff.mp hl))
      exact absurd this (lt_irrefl _)
  · exact (heap_append_lookup σ.heap _ _ _).mpr (Or.inl ⟨rfl, rfl⟩)
  · intro id hid
    exact AList.lookup_insert_ne hid
  · intro p r hr
    exact (heap_append_lookup σ.heap _ p r).mpr (Or.inr hr)

/-- Witness for C12: session 3 creates a room next to the room with id 1. -/
theorem C12_create_picks_fresh_id_witness :
    Reachable exampleState ∧ (∀ e ∈ exampleState.allRooms.entries, e.1 < 2 ^ 63 - 1) ∧
    ∃ σ1 evs, createRoomHandler (Env.quiet exampleState.allRooms.entries)
        (mkMessage 3 "Cy" "/create") exampleState = .ok (σ1, evs) ∧
      exampleState.allRooms.lookup 2 = none ∧ σ1.allRooms.lookup 2 = some 1 ∧
      σ1.allRooms.lookup 1 = some 0 :=
  ⟨reachable_example, by decide,
    let ⟨σ1, evs, hc, hnone, _, hnew, _, _, hold, _⟩ :=
      (C12_create_picks_fresh_id exampleState reachable_example).2 (by decide)
        (Env.quiet exampleState.allRooms.entries) (mkMessage 3 "Cy" "/create")
        (List.Perm.refl _)
    ⟨σ1, evs, hc, hnone, hnew, (hold 1 (by decide)).trans (by decide)⟩⟩

theorem noOverflow_example : NoOverflow exampleState := by
  intro r hr
  simp only [exampleState, List.mem_singleton] at hr
  subst hr
  decide

/-- The sweep of a reachable state succeeds, leaves rooms and directory as they
are, and keeps the registry entry of every room the directory points at. -/
theorem sweep_keeps_assigned (σ : State) (h : Reachable σ) (visit : List Entry)
    (hvisit : visit.Perm σ.allRooms.entries) :
    ∃ σ1 evs, cleanRooms visit σ = .ok (σ1, evs) ∧
      σ1.heap = σ.heap ∧ σ1.clientsRooms = σ.clientsRooms ∧
      ∀ (s : Int) (p : Nat) (id : Int), σ.clientsRooms.lookup s = some p →
        σ.allRooms.lookup id = some p → σ1.allRooms.lookup id = some p := by
  have hinv := inv_reachable σ h
  obtain ⟨σ1, evs, hclean, hheap, hdir, -, hiff⟩ :=
    cleanRooms_spec σ visit hvisit hinv.registry_valid
  refine ⟨σ1, evs, hclean, hheap, hdir, fun s p id hs hid => ?_⟩
  obtain ⟨r, hr, hmem⟩ := (hinv.directory_iff s p).mp hs
  exact (hiff id p).mpr ⟨hid, r, hr, List.ne_nil_of_mem hmem⟩

/-- C19: in every reachable state the sweep removes no room that a session is
assigned to (it succeeds, and every registry entry of a room the directory
points at is still there afterwards, with rooms and directory untouched);
a registered room the directory points at carries its registry key as `ID`;
and, as long as `max + 1` has not overflowed `int`, every room the directory
points at is in the registry under its own id, also right after a sweep. -/
theorem C19_assigned_rooms_registered (σ : State) (h : Reachable σ) :
    (∀ visit : List Entry, visit.Perm σ.allRooms.entries →
      ∃ σ1 evs, cleanRooms visit σ = .ok (σ1, evs) ∧
        σ1.heap = σ.heap ∧ σ1.clientsRooms = σ.clientsRooms ∧
        (∀ (s : Int) (p : Nat) (id : Int), σ.clientsRooms.lookup s = some p →
          σ.allRooms.lookup id = some p → σ1.allRooms.lookup id = some p) ∧
        (NoOverflow σ → ∀ (s : Int) (p : Nat), σ1.clientsRooms.lookup s = some p →
          ∃ r : Room, σ1.heap[p]? = some r ∧ σ1.allRooms.lookup r.ID = some p)) ∧
    (∀ (s : Int) (p : Nat) (id : Int), σ.clientsRooms.lookup s = some p →
      σ.allRooms.lookup id = some p → ∃ r : Room, σ.heap[p]? = some r ∧ r.ID = id) ∧
    (NoOverflow σ → ∀ (s : Int) (p : Nat), σ.clientsRooms.lookup s = some p →
      ∃ r : Room, σ.heap[p]? = some r ∧ σ.allRooms.lookup r.ID = some p) := by
  refine ⟨fun visit hvisit => ?_, fun s p id _ hid => ownIds_reachable σ h id p hid,
    fun hn => (registered_reachable σ h hn).2⟩
  obtain ⟨σ1, evs, hclean, hheap, hdir, hkeep⟩ := sweep_keeps_assigned σ h visit hvisit
  refine ⟨σ1, evs, hclean, hheap, hdir, hkeep, fun hn => ?_⟩
  have hreach1 := Reachable.sweep σ σ1 visit evs h hvisit hclean
  have hn1 : NoOverflow σ1 := by
    intro r hr
    rw [hheap] at hr
    exact hn r hr
  exact (registered_reachable σ1 hreach1 hn1).2

/-- Witness for C19: the state after session 1 created a room and session 2
joined it, and its sweep. -/
theorem C19_assigned_rooms_registered_witness :
    Reachable exampleState ∧ NoOverflow exampleState ∧
    (∀ (s : Int) (p : Nat), exampleState.clientsRooms.lookup s = some p →
      ∃ r : Room, exampleState.heap[p]? = some r ∧
        exampleState.allRooms.lookup r.ID = some p) ∧
    ∃ σ1 evs, cleanRooms exampleState.allRooms.entries exampleState = .ok (σ1, evs) ∧
      σ1.allRooms.lookup 1 = some 0 :=
  ⟨reachable_example, noOverflow_example,
    (C19_assigned_rooms_registered exampleState reachable_example).2.2 noOverflow_example,
    let ⟨σ1, evs, hclean, _, _, hkeep, _⟩ :=
      (C19_assigned_rooms_registered exampleState reachable_example).1
        exampleState.allRooms.entries (List.Perm.refl _)
    ⟨σ1, evs, hclean, hkeep 1 0 1 (by decide) (by decide)⟩⟩

end PrivateRooms
